import Mathlib

/-!
Verification of the node-pandas DataFrame core (`src/dataframe/dataframe.js`,
`src/features/GroupBy.js`, `src/utils/*`) against its natural-language
specification.

The JavaScript code is shallowly embedded: every operation becomes an
executable Lean function over an explicit `DataFrame` record.  Modelling
conventions, stated once here:

* Cell values are the inductive `Value` below.  JS numbers are modelled as
  exact rationals; the floating-point special values `Infinity` and `-0` are
  outside the modelled fragment (`NaN` exists as a constructor because
  `describe` produces it as a placeholder, but `NaN`-valued *input* cells are
  not modelled: `toNumericValue` drops them where JS would propagate a NaN).
* JS `String(x)` conversion (`jsToString`) renders integral numbers exactly as
  JS does; a non-integral rational is rendered as an exact fraction, standing
  in for JS double formatting, which is out of scope.
* After construction the JS code stores each row as a plain object keyed by
  column name, built by assigning `row[columns[i]] = data[i]` in column order;
  the embedding stores rows positionally and reads them through `jsRowGetV`,
  which reproduces the object's net semantics (last assignment of a repeated
  name wins, absent names read as `undefined`).
* JS `Map`s are insertion-ordered association lists; plain objects used as
  maps are association lists enumerated in JS property order (integer-like
  keys ascending first, then the rest in insertion order) via `jsOwnKeysOrder`.
* Thrown errors become `Except PdError` results carrying the exact message
  strings the source builds.
* `Math.sqrt` is an explicit parameter `sqrt : ℚ → ℚ` of the operations that
  need it; every theorem quantifies over it, since no claim depends on the
  value it returns.
-/

namespace NodePandas

/-- A JS cell value: number (exact rational), string, boolean, `null`,
`undefined`, or the `NaN` placeholder produced by `describe`. -/
inductive Value where
  | num (q : ℚ)
  | str (s : String)
  | bool (b : Bool)
  | null
  | undef
  | nan
deriving DecidableEq, Repr

/-- Single-quote character, used to reproduce the quoted names inside the
source's error messages. -/
def sq : String := String.singleton (Char.ofNat 39)

/-- Double-quote character. -/
def dq : String := String.singleton (Char.ofNat 34)

/-- Backslash character. -/
def bsl : String := String.singleton (Char.ofNat 92)

/-- JS `String(n)` on a number: integral rationals render exactly as JS
renders integral doubles; non-integral rationals use an exact fraction
rendering (JS double formatting is outside the modelled fragment). -/
def jsNumberToString (q : ℚ) : String :=
  if q.den = 1 then toString q.num
  else toString q.num ++ "/" ++ toString q.den

/-- JS `String(v)` conversion, as used by the grouping code for map keys. -/
def jsToString : Value → String
  | .num q => jsNumberToString q
  | .str s => s
  | .bool b => if b then "true" else "false"
  | .null => "null"
  | .undef => "undefined"
  | .nan => "NaN"

/-- Escaping of one character inside a JSON string literal (quote and
backslash; control-character escapes do not arise for the values modelled). -/
def jsonEscapeChar (c : Char) : String :=
  if c = Char.ofNat 34 then bsl ++ dq
  else if c = Char.ofNat 92 then bsl ++ bsl
  else String.singleton c

/-- `JSON.stringify` of one value, as it appears inside a serialized array:
numbers unquoted, strings quoted, `undefined` and `NaN` become `null`. -/
def jsonOfValue : Value → String
  | .num q => jsNumberToString q
  | .str s => dq ++ String.join (s.toList.map jsonEscapeChar) ++ dq
  | .bool b => if b then "true" else "false"
  | .null => "null"
  | .undef => "null"
  | .nan => "null"

/-- `JSON.stringify(keyValues)` for a join-key tuple: the serialized array of
the key cells, the merge code's canonical key encoding. -/
def jsonKeyOf (vs : List Value) : String :=
  "[" ++ String.intercalate "," (vs.map jsonOfValue) ++ "]"

/-- The error kinds raised by the source (`ValidationError`, `ColumnError`,
`IndexError` in `src/utils/errors`), carrying the message string. -/
inductive PdError where
  | validation (msg : String)
  | column (msg : String)
  | indexErr (msg : String)
deriving DecidableEq, Repr

/-- The `NodeDataFrame` state after construction: the five fields the
constructor assigns (`columns`, `index`, `data`, `rows`, `cols`).  The JS
`index` may hold numbers or strings; only its length is ever consumed, and the
embedding stores it as strings. -/
structure DataFrame where
  columns : List String
  index : List String
  data : List (List Value)
  rows : Nat
  cols : Nat
deriving DecidableEq, Repr

/-- `validateDataFrameStructure`: every row after the first must have the
first row's length; reports the first offending row. -/
def raggedCheck (expected : Nat) : List (List Value) → Nat → Except String Unit
  | [], _ => .ok ()
  | r :: rs, i =>
    if r.length ≠ expected then
      .error ("Row " ++ toString i ++ " has length " ++ toString r.length ++
        ", expected " ++ toString expected)
    else raggedCheck expected rs (i + 1)

/-- Structural validation of candidate row data (`validateDataFrameStructure`
in `src/utils/validation`). -/
def validateDataFrameStructure : List (List Value) → Except String Unit
  | [] => .ok ()
  | r0 :: rest => raggedCheck r0.length rest 1

/-- `validateColumnNames`: names must be distinct, and when an expected width
is known the count must match (the string-typedness check is carried by the
Lean type). -/
def validateColumnNames (cs : List String) (expected : Nat) : Except String Unit :=
  if ¬ cs.Nodup then .error "Column names must be unique"
  else if cs.length ≠ expected then
    .error ("Expected " ++ toString expected ++ " column names, got " ++ toString cs.length)
  else .ok ()

/-- Auto-generated column names / string row indices `"0", "1", ...`. -/
def idxStrings (n : Nat) : List String := (List.range n).map (fun i => toString i)

/-- The `NodeDataFrame` constructor: validate the 2D structure, then either
validate the given column names against the first row's width (skipped when
the data is empty) or auto-generate columns from the first row's keys; the
`index` is `0..n-1`, `rows`/`cols` are the respective lengths. -/
def mkDataFrame (dataList : List (List Value)) (columns? : Option (List String)) :
    Except PdError DataFrame :=
  match validateDataFrameStructure dataList with
  | .error m => .error (.validation ("Invalid DataFrame structure: " ++ m))
  | .ok _ =>
    match columns? with
    | some cs =>
      match (if dataList.length > 0 then validateColumnNames cs (dataList.headD []).length
             else .ok ()) with
      | .error m => .error (.validation ("Invalid column names: " ++ m))
      | .ok _ =>
        .ok ⟨cs, idxStrings dataList.length, dataList, dataList.length, cs.length⟩
    | none =>
      if dataList.length = 0 then .ok ⟨[], [], [], 0, 0⟩
      else
        .ok ⟨idxStrings (dataList.headD []).length, idxStrings dataList.length,
          dataList, dataList.length, (dataList.headD []).length⟩

/-- The empty DataFrame `new NodeDataFrame([])`. -/
def emptyDF : DataFrame := ⟨[], [], [], 0, 0⟩

/-- The name/value pairs of a row object as built by
`row[columns[i]] = rowData[i]` over the column list (indices past the row's
end read as `undefined`). -/
def rowPairs : List String → List Value → List (String × Value)
  | [], _ => []
  | c :: cs, [] => (c, .undef) :: rowPairs cs []
  | c :: cs, v :: vs => (c, v) :: rowPairs cs vs

/-- Lookup of the value left by the *last* assignment of a name — the net
semantics of repeated JS object assignment. -/
def lastAssoc : List (String × Value) → String → Option Value
  | [], _ => none
  | p :: ps, c =>
    match lastAssoc ps c with
    | some v => some v
    | none => if p.1 = c then some p.2 else none

/-- `getRow(i)[c]` including the distinction missing-vs-stored: `none` when
the name was never assigned. -/
def jsRowGet (cols : List String) (row : List Value) (c : String) : Option Value :=
  lastAssoc (rowPairs cols row) c

/-- `getRow(i)[c]` as a value: both a missing name and a stored `undefined`
read as `undefined`, exactly as in JS. -/
def jsRowGetV (cols : List String) (row : List Value) (c : String) : Value :=
  (jsRowGet cols row c).getD (.undef)

/-- The row object of row `i` of a DataFrame, as a lookup function. -/
def DataFrame.rowFun (df : DataFrame) (i : Nat) : String → Value :=
  fun c => jsRowGetV df.columns (df.data.getD i []) c

/-- `getCell(i, c)` by positional index (`columns.indexOf(c)` into the row
array); internal callers only use it where validation already succeeded. -/
def DataFrame.valueAt (df : DataFrame) (i : Nat) (c : String) : Value :=
  (df.data.getD i []).getD (df.columns.indexOf c) (.undef)

/-- Shape coherence of a DataFrame: the counts match the lists and every data
row has one value per column.  Every `mkDataFrame` result satisfies it. -/
def DataFrame.WFshape (df : DataFrame) : Prop :=
  df.rows = df.data.length ∧ df.cols = df.columns.length ∧
  df.index.length = df.rows ∧ ∀ r ∈ df.data, r.length = df.cols

/-- `select(columnNames)`: all requested names must exist (first missing one
reported); the result keeps every row, restricted to the requested columns in
the requested order. -/
def DataFrame.select (df : DataFrame) (columnNames : List String) :
    Except PdError DataFrame :=
  match columnNames.find? (fun c => ¬ df.columns.contains c) with
  | some c => .error (.column ("Column " ++ sq ++ c ++ sq ++ " does not exist"))
  | none =>
    mkDataFrame (df.data.map (fun r => columnNames.map (fun c => jsRowGetV df.columns r c)))
      (some columnNames)

/-- `filter(condition)`: keep the rows whose row object satisfies the
condition, in order, each re-materialized by `columns.map(col => row[col])`;
an empty result keeps the source's column list via the special empty path.
The condition is a total Lean function, so the thrown-predicate branch of the
source cannot fire. -/
def DataFrame.filterRows (df : DataFrame) (condition : (String → Value) → Bool) :
    Except PdError DataFrame :=
  let filteredData := (List.range df.rows).filterMap (fun i =>
    if condition (df.rowFun i) then
      some (df.columns.map (fun c => df.rowFun i c))
    else none)
  if filteredData.isEmpty then
    .ok ⟨df.columns, [], [], 0, df.columns.length⟩
  else
    mkDataFrame filteredData (some df.columns)

/-! ### Grouping (`src/features/GroupBy.js`) -/

/-- One insertion into a JS `Map` from key to list of row indices:
`if (!m.has(k)) m.set(k, []); m.get(k).push(i)`. -/
def mapInsert (gs : List (String × List Nat)) (k : String) (i : Nat) :
    List (String × List Nat) :=
  if gs.any (fun p => p.1 = k) then
    gs.map (fun p => if p.1 = k then (p.1, p.2 ++ [i]) else p)
  else gs ++ [(k, [i])]

/-- Build an insertion-ordered key → row-indices map from a keyed index
sequence (shared by single-column grouping and the merge key maps). -/
def buildGroups (ps : List (String × Nat)) : List (String × List Nat) :=
  ps.foldl (fun gs p => mapInsert gs p.1 p.2) []

/-- Lookup in an association list (JS `Map.get` / object read). -/
def assocGet (gs : List (String × α)) (k : String) : Option α :=
  (gs.find? (fun p => p.1 = k)).map (fun p => p.2)

/-- `_createSingleColumnGroups`: map each row's stringified key cell to the
row indices carrying it, in insertion order. -/
def createSingleColumnGroups (df : DataFrame) (col : String) : List (String × List Nat) :=
  buildGroups ((List.range df.rows).map (fun i => (jsToString (df.valueAt i col), i)))

/-- The hierarchical multi-column group structure: nested plain JS objects
with row-index lists at the leaves. -/
inductive GroupTree where
  | leaf (idxs : List Nat)
  | node (children : List (String × GroupTree))

/-- Insert row `i` along the path of stringified key values, creating nested
objects for intermediate keys and appending to the leaf list at the last key
(`_createMultiColumnGroups`'s inner loop).  A leaf met at an intermediate
level is left unchanged; with the fixed path length used per `GroupBy` this
case never arises. -/
def insertPath (i : Nat) : List String → List (String × GroupTree) → List (String × GroupTree)
  | [], obj => obj
  | [k], obj =>
    if obj.any (fun p => p.1 = k) then
      obj.map (fun p =>
        if p.1 = k then
          (p.1, match p.2 with
                | .leaf l => .leaf (l ++ [i])
                | .node ch => .node ch)
        else p)
    else obj ++ [(k, .leaf [i])]
  | k :: k2 :: rest, obj =>
    if obj.any (fun p => p.1 = k) then
      obj.map (fun p =>
        if p.1 = k then
          (p.1, match p.2 with
                | .node ch => .node (insertPath i (k2 :: rest) ch)
                | .leaf l => .leaf l)
        else p)
    else obj ++ [(k, .node (insertPath i (k2 :: rest) []))]

/-- `_createMultiColumnGroups`: fold every row's stringified key path into the
nested object structure. -/
def createMultiColumnGroups (df : DataFrame) (cols : List String) :
    List (String × GroupTree) :=
  (List.range df.rows).foldl (fun obj i =>
    insertPath i (cols.map (fun c => jsToString (df.valueAt i c))) obj) []

/-- Parse an all-digits string into a number (`none` when empty or holding a
non-digit). -/
def decDigits? (cs : List Char) : Option Nat :=
  if cs.isEmpty || ¬ cs.all Char.isDigit then none
  else some (cs.foldl (fun n c => n * 10 + (c.toNat - 48)) 0)

/-- Whether a string is an ECMAScript array-index property key (the canonical
decimal form of an integer below `2^32 - 1`); such keys are enumerated first,
in ascending numeric order, by `for..in`. -/
def isArrayIndexString (s : String) : Bool :=
  match decDigits? s.toList with
  | some n => decide (toString n = s) && decide (n < 4294967295)
  | none => false

/-- Numeric value of an index-like key, for ordering. -/
def keyNumOf (s : String) : Nat := (decDigits? s.toList).getD 0

/-- Ascending insertion by numeric key value (stable; the keys of a JS object
are distinct, so ties cannot arise). -/
def insertByNum (x : String × α) : List (String × α) → List (String × α)
  | [] => [x]
  | y :: ys => if keyNumOf x.1 < keyNumOf y.1 then x :: y :: ys else y :: insertByNum x ys

/-- JS own-property enumeration order for a plain object: array-index keys in
ascending numeric order first, then the remaining keys in insertion order. -/
def jsOwnKeysOrder (entries : List (String × α)) : List (String × α) :=
  ((entries.filter (fun p => isArrayIndexString p.1)).foldr insertByNum []) ++
    entries.filter (fun p => ¬ isArrayIndexString p.1)

/-- `_extractGroupKeys`: enumerate the complete key tuples of the nested
structure, visiting each level in JS property order.  The fuel argument bounds
the recursion depth; it is instantiated with the number of grouping columns,
which the tree's depth never exceeds. -/
def extractGroupKeysFuel : Nat → List (String × GroupTree) → List String → List (List String)
  | 0, _, _ => []
  | fuel + 1, obj, pre =>
    (jsOwnKeysOrder obj).flatMap (fun p =>
      match p.2 with
      | .leaf _ => [pre ++ [p.1]]
      | .node ch => extractGroupKeysFuel fuel ch (pre ++ [p.1]))

/-- The group structure held by a `GroupBy`: a `Map` for a single grouping
column, nested objects for several. -/
inductive Groups where
  | single (m : List (String × List Nat))
  | multi (t : List (String × GroupTree))

/-- A constructed `GroupBy` object. -/
structure GroupBy where
  df : DataFrame
  groupingColumns : List String
  groups : Groups

/-- The `GroupBy` constructor on an already-normalized column list: every
grouping column must exist (first missing one reported), then the group
structure is built. -/
def mkGroupBy (df : DataFrame) (cols : List String) : Except PdError GroupBy :=
  match cols.find? (fun c => ¬ df.columns.contains c) with
  | some c => .error (.column ("Column " ++ sq ++ c ++ sq ++ " does not exist"))
  | none =>
    .ok ⟨df, cols,
      if cols.length = 1 then
        .single (createSingleColumnGroups df (cols.headD ""))
      else .multi (createMultiColumnGroups df cols)⟩

/-- `_getGroupKeys`, with the single-column string key wrapped into a
one-element tuple (the JS code passes the bare string and every consumer
re-wraps it, so the two forms are interchangeable). -/
def GroupBy.groupKeys (g : GroupBy) : List (List String) :=
  match g.groups with
  | .single m => m.map (fun p => [p.1])
  | .multi t => extractGroupKeysFuel g.groupingColumns.length t []

/-- `_getRowIndicesForKey`: map lookup for a single column, a walk through the
nested objects otherwise. -/
def GroupBy.rowIndicesFor (g : GroupBy) (key : List String) : List Nat :=
  match g.groups with
  | .single m =>
    match key.head? with
    | some k => (assocGet m k).getD []
    | none => []
  | .multi t => walkTree t key
where
  /-- Walk `current = current[String(key)]` along the key tuple. -/
  walkTree : List (String × GroupTree) → List String → List Nat
    | _, [] => []
    | obj, [k] =>
      match assocGet obj k with
      | some (.leaf l) => l
      | _ => []
    | obj, k :: k2 :: rest =>
      match assocGet obj k with
      | some (.node ch) => walkTree ch (k2 :: rest)
      | _ => []

/-- JS `parseFloat` on the fragment that arises for cell strings: optional
leading whitespace and sign, then integer and/or fractional decimal digits;
no digits at all means `NaN` (modelled as `none`).  Exponent suffixes are
outside the modelled fragment (they only widen the set of accepted strings). -/
def jsParseFloat (s : String) : Option ℚ :=
  let cs := s.toList.dropWhile (fun c => c = ' ' || c = Char.ofNat 9 ||
    c = Char.ofNat 10 || c = Char.ofNat 13)
  let signed := cs.head? = some '-'
  let cs1 := if cs.head? = some '-' || cs.head? = some '+' then cs.tail else cs
  let intDigits := cs1.takeWhile Char.isDigit
  let rest := cs1.drop intDigits.length
  let fracDigits := match rest with
    | '.' :: t => t.takeWhile Char.isDigit
    | _ => []
  if intDigits.isEmpty && fracDigits.isEmpty then none
  else
    let mag : ℚ := (digitsVal intDigits : ℚ) + (digitsVal fracDigits : ℚ) / (10 : ℚ) ^ fracDigits.length
    some (if signed then -mag else mag)
where
  /-- Value of a decimal digit run. -/
  digitsVal (ds : List Char) : Nat := ds.foldl (fun n c => n * 10 + (c.toNat - 48)) 0

/-- `GroupBy._toNumeric`: numbers pass through, strings go through
`parseFloat` (`NaN` → `null`), everything else — including `null` and
`undefined` — is dropped as `null`.  A `NaN` cell is dropped here as well
(see the module comment: NaN-valued input cells are outside the fragment). -/
def toNumericValue : Value → Option ℚ
  | .num q => some q
  | .str s => jsParseFloat s
  | _ => none

/-- `GroupBy._computeAggregation`: the reduction of one column's numeric
values for one group.  `std` is the sample standard deviation and returns
`null` below two values; an unknown method returns `null`. -/
def computeAggregation (sqrt : ℚ → ℚ) (method : String) (values : List ℚ) : Value :=
  match values with
  | [] => .null
  | v0 :: vtail =>
    if method = "mean" then .num (values.sum / (values.length : ℚ))
    else if method = "sum" then .num values.sum
    else if method = "min" then .num (vtail.foldl min v0)
    else if method = "max" then .num (vtail.foldl max v0)
    else if method = "std" then
      if values.length < 2 then .null
      else
        let m := values.sum / (values.length : ℚ)
        let variance := (values.map (fun x => (x - m) ^ 2)).sum / ((values.length : ℚ) - 1)
        .num (sqrt variance)
    else .null

/-- JS object assignment `o[k] = v`: overwrite in place when the key exists
(keeping its position), append otherwise. -/
def objSet (o : List (String × α)) (k : String) (v : α) : List (String × α) :=
  if o.any (fun p => p.1 = k) then
    o.map (fun p => if p.1 = k then (p.1, v) else p)
  else o ++ [(k, v)]

/-- `_buildResultRow`: a fresh object holding the grouping-column values (the
stringified key tuple; a missing tuple component reads as `undefined`) and
then the aggregation entries, in that assignment order. -/
def buildResultRow (groupingColumns : List String) (keyArray : List String)
    (aggregations : List (String × Value)) : List (String × Value) :=
  let keyed := (List.range groupingColumns.length).foldl (fun row i =>
    objSet row (groupingColumns.getD i "")
      (match keyArray.get? i with
       | some k => .str k
       | none => Value.undef)) []
  aggregations.foldl (fun row p => objSet row p.1 p.2) keyed

/-- `_createResultDataFrame`: result columns are the grouping columns
followed by `count` or by the non-grouping source columns; an empty result
set becomes a zero-row frame that keeps those columns, otherwise each row
object is materialized in result-column order with `undefined` (missing)
entries becoming `null`. -/
def createResultDataFrame (g : GroupBy) (results : List (List (String × Value)))
    (isCount : Bool) : Except PdError DataFrame :=
  let resultColumns := g.groupingColumns ++
    (if isCount then ["count"]
     else g.df.columns.filter (fun c => ¬ g.groupingColumns.contains c))
  if results.isEmpty then
    .ok ⟨resultColumns, [], [], 0, resultColumns.length⟩
  else
    mkDataFrame (results.map (fun row => resultColumns.map (fun c =>
      match assocGet row c with
      | some v => if v = .undef then .null else v
      | none => .null))) (some resultColumns)

/-- `count()`: one result row per group key holding the group's size. -/
def GroupBy.countAgg (g : GroupBy) : Except PdError DataFrame :=
  let results := g.groupKeys.map (fun key =>
    buildResultRow g.groupingColumns key [("count", .num ((g.rowIndicesFor key).length : ℚ))])
  createResultDataFrame g results true

/-- The numeric values of column position `colIdx` gathered over a group's
row indices, after dropping the non-coercible entries. -/
def groupColumnNumerics (df : DataFrame) (rowIndices : List Nat) (colIdx : Nat) : List ℚ :=
  (rowIndices.map (fun rowIdx => (df.data.getD rowIdx []).getD colIdx .undef)).filterMap
    toNumericValue

/-- One step of `_aggregateNumeric`'s per-column loop, at the enumerated
column `p`: grouping columns are skipped, and an aggregation entry is
recorded only when at least one numeric value remains. -/
def aggStep (sqrt : ℚ → ℚ) (method : String) (df : DataFrame) (groupingColumns : List String)
    (rowIndices : List Nat) (aggs : List (String × Value)) (p : Nat × String) :
    List (String × Value) :=
  if groupingColumns.contains p.2 then aggs
  else
    let numericValues := groupColumnNumerics df rowIndices p.1
    if numericValues.length > 0 then
      objSet aggs p.2 (computeAggregation sqrt method numericValues)
    else aggs

/-- `_aggregateNumeric`: for each group and each non-grouping column, gather
the column's values over the group's rows, keep the numerically coercible
ones, and record the aggregation when at least one value remains. -/
def GroupBy.aggregateNumeric (sqrt : ℚ → ℚ) (g : GroupBy) (method : String) :
    Except PdError DataFrame :=
  let results := g.groupKeys.map (fun key =>
    let rowIndices := g.rowIndicesFor key
    let aggregations := g.df.columns.enum.foldl
      (aggStep sqrt method g.df g.groupingColumns rowIndices) []
    buildResultRow g.groupingColumns key aggregations)
  createResultDataFrame g results false

/-- `groupBy(columns).mean()` and friends, from a DataFrame: construct the
`GroupBy`, then aggregate. -/
def DataFrame.groupAgg (df : DataFrame) (cols : List String) (sqrt : ℚ → ℚ)
    (method : String) : Except PdError DataFrame :=
  (mkGroupBy df cols).bind (fun g => g.aggregateNumeric sqrt method)

/-- `groupBy(columns).count()` from a DataFrame. -/
def DataFrame.groupCount (df : DataFrame) (cols : List String) : Except PdError DataFrame :=
  (mkGroupBy df cols).bind GroupBy.countAgg

/-! ### Merge (`NodeDataFrame.merge`) -/

/-- What `merge` returns: a freshly constructed DataFrame, or one of its two
*input objects* — the source's empty-side short circuits literally
`return this` / `return otherDataFrame`, and the distinction between a fresh
Table and an aliased input is observable, so the embedding records it. -/
inductive MergeOut where
  | fresh (df : DataFrame)
  | aliasLeft
  | aliasRight
deriving DecidableEq, Repr

/-- Join-key validation: per key, first the left side, then the right. -/
def validateJoinKeys (left right : DataFrame) : List String → Except PdError Unit
  | [] => .ok ()
  | k :: ks =>
    if ¬ left.columns.contains k then
      .error (.column ("Join key " ++ sq ++ k ++ sq ++ " not found in left DataFrame"))
    else if ¬ right.columns.contains k then
      .error (.column ("Join key " ++ sq ++ k ++ sq ++ " not found in right DataFrame"))
    else validateJoinKeys left right ks

/-- The serialized join-key tuple of row `i` (`JSON.stringify` of the key
cells). -/
def keyStrOf (df : DataFrame) (joinKeys : List String) (i : Nat) : String :=
  jsonKeyOf (joinKeys.map (fun k => df.valueAt i k))

/-- `buildMergedRow(leftIdx, rightIdx)`: every left column's value at
`leftIdx` in left column order, then every right non-key column's value at
`rightIdx`, or `null` for each when `rightIdx` is absent. -/
def mergedRowOf (left right : DataFrame) (joinKeys : List String) (leftIdx : Nat)
    (rightIdx : Option Nat) : List Value :=
  left.columns.map (fun c => left.rowFun leftIdx c) ++
    (right.columns.filter (fun c => ¬ joinKeys.contains c)).map (fun c =>
      match rightIdx with
      | some ri => right.rowFun ri c
      | none => Value.null)

/-- The merged column list of step 5: left columns (conflicts suffixed with
`suffixes[0]`) followed by the right non-key columns (conflicts suffixed with
`suffixes[1]`). -/
def newColumnsOf (left right : DataFrame) (joinKeys suffixes : List String) : List String :=
  let rightColumnsToAdd := right.columns.filter (fun c => ¬ joinKeys.contains c)
  let conflicting := rightColumnsToAdd.filter (fun c => left.columns.contains c)
  left.columns.map (fun c => if conflicting.contains c then c ++ suffixes.getD 0 "" else c) ++
    rightColumnsToAdd.map (fun c => if conflicting.contains c then c ++ suffixes.getD 1 "" else c)

/-- `merge(otherDataFrame, onKey, how, suffixes)` with `onKey` already
normalized to a list, following the source's exact order: empty-side short
circuits first, then join-key validation, join-type validation, suffix-arity
validation, key-map construction, one of the four join loops, and final
construction. -/
def mergeImpl (left right : DataFrame) (joinKeys : List String) (how : String)
    (suffixes : List String) : Except PdError MergeOut :=
  if left.rows = 0 ∧ right.rows = 0 then (mkDataFrame [] none).map .fresh
  else if left.rows = 0 then
    if how = "right" ∨ how = "outer" then .ok .aliasRight
    else (mkDataFrame [] none).map .fresh
  else if right.rows = 0 then
    if how = "left" ∨ how = "outer" then .ok .aliasLeft
    else (mkDataFrame [] none).map .fresh
  else
    match validateJoinKeys left right joinKeys with
    | .error e => .error e
    | .ok _ =>
      if ¬ (["inner", "left", "right", "outer"] : List String).contains how then
        .error (.validation ("Invalid join type " ++ sq ++ how ++ sq ++
          ". Must be one of: inner, left, right, outer"))
      else if suffixes.length ≠ 2 then
        .error (.validation "suffixes must be an array of exactly 2 strings")
      else
        let leftColumns := left.columns
        let rightColumnsToAdd := right.columns.filter (fun c => ¬ joinKeys.contains c)
        let leftMap := buildGroups ((List.range left.rows).map (fun i =>
          (keyStrOf left joinKeys i, i)))
        let rightMap := buildGroups ((List.range right.rows).map (fun i =>
          (keyStrOf right joinKeys i, i)))
        let buildMergedRow := mergedRowOf left right joinKeys
        let mergedData :=
          if how = "inner" then
            leftMap.flatMap (fun p =>
              match assocGet rightMap p.1 with
              | some rightIndices =>
                p.2.flatMap (fun li => rightIndices.map (fun ri => buildMergedRow li (some ri)))
              | none => [])
          else if how = "left" then
            (List.range left.rows).flatMap (fun i =>
              match assocGet rightMap (keyStrOf left joinKeys i) with
              | some rightIndices => rightIndices.map (fun ri => buildMergedRow i (some ri))
              | none => [buildMergedRow i none])
          else if how = "right" then
            (List.range right.rows).flatMap (fun i =>
              match assocGet leftMap (keyStrOf right joinKeys i) with
              | some leftIndices => leftIndices.map (fun li => buildMergedRow li (some i))
              | none => [List.replicate leftColumns.length Value.null ++
                  rightColumnsToAdd.map (fun c => right.rowFun i c)])
          else
            (List.range left.rows).flatMap (fun i =>
              match assocGet rightMap (keyStrOf left joinKeys i) with
              | some rightIndices => rightIndices.map (fun ri => buildMergedRow i (some ri))
              | none => [buildMergedRow i none]) ++
              rightMap.flatMap (fun p =>
                if leftMap.any (fun q => q.1 = p.1) then []
                else p.2.map (fun ri =>
                  leftColumns.map (fun c =>
                    if joinKeys.contains c then right.rowFun ri c else Value.null) ++
                    rightColumnsToAdd.map (fun c => right.rowFun ri c)))
        (mkDataFrame mergedData (some (newColumnsOf left right joinKeys suffixes))).map .fresh

/-- The DataFrame `merge` evaluates to, with the aliased short-circuit
results resolved to the corresponding input. -/
def mergeDF (left right : DataFrame) (joinKeys : List String) (how : String)
    (suffixes : List String) : Except PdError DataFrame :=
  (mergeImpl left right joinKeys how suffixes).map (fun out =>
    match out with
    | .fresh df => df
    | .aliasLeft => left
    | .aliasRight => right)

/-! ### Concat (`NodeDataFrame.concat`) -/

/-- The horizontal row-count mismatch message, with the first non-empty
frame's row count, the mismatching frame's position among the non-empty
frames, and its row count interpolated. -/
def concatMismatchMsg (numRows i actual : Nat) : String :=
  "All DataFrames must have the same number of rows for horizontal concatenation. DataFrame 0 has "
    ++ toString numRows ++ " rows, DataFrame " ++ toString i ++ " has "
    ++ toString actual ++ " rows"

/-- First frame (by position, starting at the given counter) whose row count
differs from `numRows`. -/
def findMismatch (numRows : Nat) : List DataFrame → Nat → Option (Nat × Nat)
  | [], _ => none
  | d :: ds, i => if d.rows ≠ numRows then some (i, d.rows) else findMismatch numRows ds (i + 1)

/-- `concat(dataFrames, axis)`: an empty input list short-circuits to the
empty frame before the axis is validated; vertical concatenation unions the
columns in first-seen order and pads missing cells with `null`; horizontal
concatenation drops zero-row frames, requires one shared row count among the
rest, and concatenates columns and rows without collision renaming. -/
def concatImpl (dataFrames : List DataFrame) (axis : Nat) : Except PdError DataFrame :=
  if dataFrames.isEmpty then mkDataFrame [] none
  else if axis ≠ 0 ∧ axis ≠ 1 then
    .error (.validation "axis must be 0 (vertical) or 1 (horizontal)")
  else if axis = 0 then
    let allColumns := dataFrames.foldl (fun acc df =>
      df.columns.foldl (fun acc c => if acc.contains c then acc else acc ++ [c]) acc) []
    if allColumns.isEmpty then mkDataFrame [] none
    else
      mkDataFrame (dataFrames.flatMap (fun df =>
        (List.range df.rows).map (fun i =>
          allColumns.map (fun c =>
            let v := df.rowFun i c
            if v = .undef then .null else v)))) (some allColumns)
  else
    let nonEmpty := dataFrames.filter (fun d => decide (0 < d.rows))
    if nonEmpty.isEmpty then mkDataFrame [] none
    else
      let numRows := (nonEmpty.headD emptyDF).rows
      match findMismatch numRows (nonEmpty.drop 1) 1 with
      | some p => .error (.validation (concatMismatchMsg numRows p.1 p.2))
      | none =>
        mkDataFrame ((List.range numRows).map (fun i =>
          nonEmpty.flatMap (fun df => df.columns.map (fun c => df.rowFun i c))))
          (some (nonEmpty.flatMap (fun d => d.columns)))

/-! ### Element-wise transformations -/

/-- `apply(columnName, fn)`: the named column's cells are replaced by
`fn(value, rowIndex)`, everything else is copied (`fn` is total, so the
wrapped-callback-error branch cannot fire). -/
def DataFrame.applyCol (df : DataFrame) (columnName : String) (fn : Value → Nat → Value) :
    Except PdError DataFrame :=
  if ¬ df.columns.contains columnName then
    .error (.column ("Column " ++ sq ++ columnName ++ sq ++ " does not exist"))
  else
    mkDataFrame (df.data.enum.map (fun p =>
      df.columns.map (fun c =>
        if c = columnName then fn (jsRowGetV df.columns p.2 columnName) p.1
        else jsRowGetV df.columns p.2 c))) (some df.columns)

/-- `map(fn)`: every cell becomes `fn(value, rowIndex, columnName)`. -/
def DataFrame.mapCells (df : DataFrame) (fn : Value → Nat → String → Value) :
    Except PdError DataFrame :=
  mkDataFrame (df.data.enum.map (fun p =>
    df.columns.map (fun c => fn (jsRowGetV df.columns p.2 c) p.1 c))) (some df.columns)

/-- `replace(oldValue, newValue, columnName?)`: cells matched by the
predicate (strict equality for a plain `oldValue`, the callback itself for a
function `oldValue`) become `newValue`, restricted to one column when given.
The source updates the row object column by column; since distinct names are
distinct keys and re-matching an already-written `newValue` rewrites the same
`newValue`, the net effect per cell is this one conditional. -/
def DataFrame.replaceVals (df : DataFrame) (shouldReplace : Value → Bool) (newValue : Value)
    (columnName? : Option String) : Except PdError DataFrame :=
  match columnName? with
  | some col =>
    if ¬ df.columns.contains col then
      .error (.column ("Column " ++ sq ++ col ++ sq ++ " does not exist"))
    else
      mkDataFrame (df.data.map (fun r => df.columns.map (fun c =>
        let v := jsRowGetV df.columns r c
        if c = col then (if shouldReplace v then newValue else v) else v))) (some df.columns)
  | none =>
    mkDataFrame (df.data.map (fun r => df.columns.map (fun c =>
      let v := jsRowGetV df.columns r c
      if shouldReplace v then newValue else v))) (some df.columns)

/-! ### Describe (`NodeDataFrame.describe`) -/

/-- `describe`'s `isNumeric`: a non-null number that is not `NaN`. -/
def isNumericVal : Value → Bool
  | .num _ => true
  | _ => false

/-- Ascending insertion (the comparator `(a, b) => a - b`). -/
def insertRat (x : ℚ) : List ℚ → List ℚ
  | [] => [x]
  | y :: ys => if x ≤ y then x :: y :: ys else y :: insertRat x ys

/-- Ascending numeric sort of a column's numeric values. -/
def sortRats (l : List ℚ) : List ℚ := l.foldr insertRat []

/-- The numeric values of a column, sorted ascending (`getNumericValues`). -/
def numericValuesOf (df : DataFrame) (c : String) : List ℚ :=
  sortRats (((List.range df.rows).map (fun i => df.valueAt i c)).filterMap (fun v =>
    match v with
    | .num q => some q
    | _ => none))

/-- The non-null values of a column (`getNonNullValues`). -/
def nonNullValuesOf (df : DataFrame) (c : String) : List Value :=
  ((List.range df.rows).map (fun i => df.valueAt i c)).filter (fun v =>
    v ≠ .null && v ≠ .undef)

/-- Linear-interpolation percentile over a sorted value list. -/
def percentileOf (values : List ℚ) (p : ℚ) : Value :=
  match values with
  | [] => .nan
  | _ =>
    let idx : ℚ := p / 100 * ((values.length : ℚ) - 1)
    let lower : Nat := (⌊idx⌋).toNat
    let upper : Nat := (⌈idx⌉).toNat
    let weight : ℚ := idx - (⌊idx⌋ : ℚ)
    if lower = upper then .num (values.getD lower 0)
    else .num (values.getD lower 0 * (1 - weight) + values.getD upper 0 * weight)

/-- `describe`'s sample standard deviation (`NaN` below two values). -/
def stdOfDescribe (sqrt : ℚ → ℚ) (values : List ℚ) : Value :=
  if values.length < 2 then .nan
  else
    let avg := values.sum / (values.length : ℚ)
    .num (sqrt ((values.map (fun v => (v - avg) ^ 2)).sum / ((values.length : ℚ) - 1)))

/-- `getMode`: most frequent value, counted in a plain object keyed by the
value's string form (so values with equal string forms share a counter),
first maximum reached wins. -/
def getMode (values : List Value) : Value :=
  match values with
  | [] => .undef
  | v0 :: _ =>
    let r := values.foldl (fun (st : List (String × Nat) × Nat × Value) v =>
      let k := jsToString v
      let f := ((assocGet st.1 k).getD 0) + 1
      let freq := objSet st.1 k f
      if st.2.1 < f then (freq, f, v) else (freq, st.2.1, st.2.2)) ([], 0, v0)
    r.2.2

/-- `getModeFrequency`: the maximal counter value. -/
def getModeFrequency (values : List Value) : Nat :=
  (values.foldl (fun (st : List (String × Nat) × Nat) v =>
    let k := jsToString v
    let f := ((assocGet st.1 k).getD 0) + 1
    (objSet st.1 k f, max st.2 f)) ([], 0)).2

/-- The eleven statistic rows of `describe`, in order. -/
def statNames : List String :=
  ["count", "mean", "std", "min", "25%", "50%", "75%", "max", "unique", "top", "freq"]

/-- One cell of the `describe` result: the given statistic of the given
column. -/
def describeCell (sqrt : ℚ → ℚ) (df : DataFrame) (statName columnName : String) : Value :=
  let numericValues := numericValuesOf df columnName
  let nonNullValues := nonNullValuesOf df columnName
  if statName = "count" then .num (nonNullValues.length : ℚ)
  else if statName = "mean" then
    if numericValues.length > 0 then .num (numericValues.sum / (numericValues.length : ℚ))
    else .nan
  else if statName = "std" then
    if numericValues.length > 0 then stdOfDescribe sqrt numericValues else .nan
  else if statName = "min" then
    match numericValues.head? with
    | some q => .num q
    | none => (nonNullValues.head?).getD .nan
  else if statName = "25%" then
    if numericValues.length > 0 then percentileOf numericValues 25 else .nan
  else if statName = "50%" then
    if numericValues.length > 0 then percentileOf numericValues 50 else .nan
  else if statName = "75%" then
    if numericValues.length > 0 then percentileOf numericValues 75 else .nan
  else if statName = "max" then
    match numericValues.getLast? with
    | some q => .num q
    | none => (nonNullValues.getLast?).getD .nan
  else if statName = "unique" then
    if numericValues.length > 0 then .nan else .num (nonNullValues.dedup.length : ℚ)
  else if statName = "top" then
    if numericValues.length > 0 then .nan else getMode nonNullValues
  else if statName = "freq" then
    if numericValues.length > 0 then .nan else .num ((getModeFrequency nonNullValues : ℚ))
  else (.undef)

/-- `describe()`: empty frames short-circuit to the empty frame; otherwise
eleven statistic rows over the original columns, with the `index` then
overwritten by the statistic names. -/
def DataFrame.describeStats (df : DataFrame) (sqrt : ℚ → ℚ) : Except PdError DataFrame :=
  if df.rows = 0 ∨ df.cols = 0 then mkDataFrame [] none
  else
    (mkDataFrame (statNames.map (fun s =>
      df.columns.map (fun c => describeCell sqrt df s c))) (some df.columns)).map
      (fun res => { res with index := statNames })

/-! ### Specification-level helpers, used to state the theorems -/

/-- First-occurrence deduplication: the distinct elements of a list in the
order they first appear (the iteration order of a JS `Map` built by
insertion). -/
def firstDedup : List String → List String
  | [] => []
  | a :: l => a :: (firstDedup l).filter (fun b => b ≠ a)

/-- Closed form of `buildGroups`: one entry per distinct key in
first-occurrence order, carrying the positions of that key in order. -/
def groupsSpec (ps : List (String × Nat)) : List (String × List Nat) :=
  (firstDedup (ps.map Prod.fst)).map (fun k =>
    (k, (ps.filter (fun p => p.1 = k)).map Prod.snd))

/-- The rows a filter keeps: the data rows whose row object satisfies the
condition, in order. -/
def keptRows (df : DataFrame) (condition : (String → Value) → Bool) : List (List Value) :=
  df.data.filter (fun r => condition (fun c => jsRowGetV df.columns r c))

/-- The DataFrame a successful filter evaluates to. -/
def filteredDF (df : DataFrame) (condition : (String → Value) → Bool) : DataFrame :=
  ⟨df.columns, idxStrings (keptRows df condition).length, keptRows df condition,
    (keptRows df condition).length, df.columns.length⟩

/-- The stringified key-cell sequence a single-column grouping runs over. -/
def groupKeyCells (df : DataFrame) (K : String) : List String :=
  (List.range df.rows).map (fun i => jsToString (df.valueAt i K))

/-- The serialized join-key sequence of a merge side. -/
def sideKeys (df : DataFrame) (joinKeys : List String) : List String :=
  (List.range df.rows).map (fun i => keyStrOf df joinKeys i)

/-- The frame `groupBy(K).count()` evaluates to: one row per entry of the
single-column group map, in map order, holding the stringified key and the
group size. -/
def singleCountDF (df : DataFrame) (K : String) : DataFrame :=
  let m := createSingleColumnGroups df K
  ⟨[K, "count"], idxStrings m.length,
    m.map (fun p => [.str p.1, .num (p.2.length : ℚ)]), m.length, 2⟩

/-- The numeric values `_aggregateNumeric` gathers for one group key and one
column name (looked up at the column's first position). -/
def GroupBy.numericsFor (g : GroupBy) (key : List String) (c : String) : List ℚ :=
  groupColumnNumerics g.df (g.rowIndicesFor key) (g.df.columns.indexOf c)

/-- The structural invariant of the spec: the stored `rows` and `cols` counts
match the `index` and `columns` lists. -/
def DataFrame.SInv (df : DataFrame) : Prop :=
  df.index.length = df.rows ∧ df.cols = df.columns.length

/-- A frame obtained from the constructor or from one of the core operations.
The merge disjunct carries the invariant for the two inputs, because the
empty-side short circuits return an input object unchanged — an input is
itself a produced frame, so the inductive reading of the spec grants it. -/
def ProducedBy (res : DataFrame) : Prop :=
  (∃ dl c?, mkDataFrame dl c? = .ok res) ∨
  (∃ df cs, DataFrame.select df cs = .ok res) ∨
  (∃ df c, DataFrame.filterRows df c = .ok res) ∨
  (∃ df cols f method, DataFrame.groupAgg df cols f method = .ok res) ∨
  (∃ df cols, DataFrame.groupCount df cols = .ok res) ∨
  (∃ l r ks how sfx, DataFrame.SInv l ∧ DataFrame.SInv r ∧
    mergeDF l r ks how sfx = .ok res) ∨
  (∃ dfs axis, concatImpl dfs axis = .ok res) ∨
  (∃ df c fn, DataFrame.applyCol df c fn = .ok res) ∨
  (∃ df fn, DataFrame.mapCells df fn = .ok res) ∨
  (∃ df p v c?, DataFrame.replaceVals df p v c? = .ok res) ∨
  (∃ df f, DataFrame.describeStats df f = .ok res)

/-- Decidable equality of operation results, for checking concrete runs. -/
instance decEqExcept {ε α : Type} [DecidableEq ε] [DecidableEq α] :
    DecidableEq (Except ε α)
  | .ok a, .ok b =>
    match decEq a b with
    | isTrue h => isTrue (by rw [h])
    | isFalse h => isFalse (by intro hc; cases hc; exact h rfl)
  | .error a, .error b =>
    match decEq a b with
    | isTrue h => isTrue (by rw [h])
    | isFalse h => isFalse (by intro hc; cases hc; exact h rfl)
  | .ok _, .error _ => isFalse (by intro hc; cases hc)
  | .error _, .ok _ => isFalse (by intro hc; cases hc)

/-! ### Concrete example frames used by the counterexamples and witnesses -/

/-- Left side with a duplicated key: key column `k` holds `1, 2, 1`. -/
def exL : DataFrame := ⟨["k"], ["0", "1", "2"], [[.num 1], [.num 2], [.num 1]], 3, 1⟩

/-- Right side keyed `1, 2` with a payload column. -/
def exR : DataFrame :=
  ⟨["k", "v"], ["0", "1"], [[.num 1, .str "x"], [.num 2, .str "y"]], 2, 2⟩

/-- Two-column frame whose first key column holds the integer-like values
`10` and `2`. -/
def exAB : DataFrame := ⟨["a", "b"], ["0", "1"], [[.num 10, .num 1], [.num 2, .num 1]], 2, 2⟩

/-- One row whose key cell is the *number* `1`. -/
def exM1 : DataFrame := ⟨["k"], ["0"], [[.num 1]], 1, 1⟩

/-- One row whose key cell is the *string* `"1"`. -/
def exM2 : DataFrame := ⟨["k", "v"], ["0"], [[.str "1", .num 25]], 1, 2⟩

/-- A zero-row frame that still carries the column `k`. -/
def exEmptyK : DataFrame := ⟨["k"], [], [], 0, 1⟩

/-- A one-row frame whose only column is named `count`. -/
def exCnt : DataFrame := ⟨["count"], ["0"], [[.num 0]], 1, 1⟩

/-- A one-row frame with the single column `a`. -/
def exA1 : DataFrame := ⟨["a"], ["0"], [[.num 1]], 1, 1⟩

/-- Frame whose key column holds the number `1` and the string `"1"`. -/
def exU : DataFrame :=
  ⟨["k", "v"], ["0", "1"], [[.num 1, .num 10], [.str "1", .num 20]], 2, 2⟩

/-- The `GroupBy` object `exU.groupBy("k")` constructs. -/
def exUGroup : GroupBy := ⟨exU, ["k"], .single (createSingleColumnGroups exU "k")⟩

/-! ### Constructor lemmas -/

theorem idxStrings_length (n : Nat) : (idxStrings n).length = n := by
  simp [idxStrings]

theorem raggedCheck_ok_of {e : Nat} (rs : List (List Value)) :
    ∀ (i : Nat), (∀ r ∈ rs, r.length = e) → raggedCheck e rs i = .ok () := by
  induction rs with
  | nil => intro i _; rfl
  | cons r rs ih =>
    intro i h
    have hr : r.length = e := h r (by simp)
    simp only [raggedCheck]
    rw [if_neg (by simp [hr])]
    exact ih (i + 1) (fun r2 hrm => h r2 (by simp [hrm]))

theorem raggedCheck_ok_imp {e : Nat} (rs : List (List Value)) :
    ∀ (i : Nat), raggedCheck e rs i = .ok () → ∀ r ∈ rs, r.length = e := by
  induction rs with
  | nil => intro i _ r hr; cases hr
  | cons r0 rs ih =>
    intro i h r hr
    by_cases he : r0.length = e
    · simp only [raggedCheck] at h
      rw [if_neg (by simp [he])] at h
      rcases List.mem_cons.mp hr with h1 | h2
      · rw [h1]; exact he
      · exact ih (i + 1) h r h2
    · simp only [raggedCheck] at h
      rw [if_pos (by simp [he])] at h
      cases h

theorem validateColumnNames_ok_iff (cs : List String) (e : Nat) :
    validateColumnNames cs e = .ok () ↔ cs.Nodup ∧ cs.length = e := by
  unfold validateColumnNames
  by_cases h1 : cs.Nodup
  · by_cases h2 : cs.length = e
    · simp [h1, h2]
    · simp [h1, h2]
  · simp [h1]

/-- A well-shaped data list with distinct column names constructs without
error, and the resulting frame is exactly this record. -/
theorem mkDataFrame_ok_of {dl : List (List Value)} {cs : List String}
    (hlen : ∀ r ∈ dl, r.length = cs.length) (hnd : cs.Nodup) :
    mkDataFrame dl (some cs) = .ok ⟨cs, idxStrings dl.length, dl, dl.length, cs.length⟩ := by
  unfold mkDataFrame
  cases dl with
  | nil => simp [validateDataFrameStructure, idxStrings]
  | cons r0 rest =>
    have h0 : r0.length = cs.length := hlen r0 (by simp)
    have hs : validateDataFrameStructure (r0 :: rest) = .ok () := by
      unfold validateDataFrameStructure
      exact raggedCheck_ok_of rest 1 (fun r hr => by rw [hlen r (by simp [hr]), h0])
    rw [hs]
    have hv : validateColumnNames cs r0.length = .ok () := by
      rw [validateColumnNames_ok_iff]
      exact ⟨hnd, h0.symm⟩
    simp [hv]

/-- Every successful construction yields exactly the structural fields the
constructor assigns. -/
theorem mkDataFrame_ok_shape {dl : List (List Value)} {c? : Option (List String)}
    {df : DataFrame} (h : mkDataFrame dl c? = .ok df) :
    df.data = dl ∧ df.index = idxStrings dl.length ∧ df.rows = dl.length ∧
      df.cols = df.columns.length := by
  unfold mkDataFrame at h
  cases hv : validateDataFrameStructure dl with
  | error m => rw [hv] at h; cases h
  | ok u =>
    obtain ⟨⟩ := u
    rw [hv] at h
    dsimp only at h
    cases c? with
    | some cs =>
      dsimp only at h
      cases hvc : (if dl.length > 0 then validateColumnNames cs (dl.headD []).length
                   else .ok ()) with
      | error m => rw [hvc] at h; cases h
      | ok u2 =>
        obtain ⟨⟩ := u2
        rw [hvc] at h
        dsimp only at h
        cases h
        exact ⟨rfl, rfl, rfl, rfl⟩
    | none =>
      dsimp only at h
      by_cases hd : dl.length = 0
      · rw [if_pos hd] at h
        cases h
        have hdl : dl = [] := List.length_eq_zero.mp hd
        simp [hdl, idxStrings]
      · rw [if_neg hd] at h
        cases h
        exact ⟨rfl, rfl, rfl, by simp [idxStrings_length]⟩

/-- Every successful construction is well-shaped. -/
theorem mkDataFrame_ok_wf {dl : List (List Value)} {c? : Option (List String)}
    {df : DataFrame} (h : mkDataFrame dl c? = .ok df) : df.WFshape := by
  obtain ⟨hdata, hidx, hrows, hcols⟩ := mkDataFrame_ok_shape h
  refine ⟨by rw [hrows, hdata], hcols, by rw [hidx, hrows, idxStrings_length], ?_⟩
  intro r hr
  unfold mkDataFrame at h
  cases hv : validateDataFrameStructure dl with
  | error m => rw [hv] at h; cases h
  | ok u =>
    have hlens : ∀ r2 ∈ dl, r2.length = (dl.headD []).length := by
      cases dl with
      | nil => intro r2 hr2; cases hr2
      | cons r0 rest =>
        intro r2 hr2
        rcases List.mem_cons.mp hr2 with h1 | h2
        · rw [h1]; rfl
        · unfold validateDataFrameStructure at hv
          exact (raggedCheck_ok_imp rest 1 hv r2 h2).trans rfl
    obtain ⟨⟩ := u
    rw [hv] at h
    dsimp only at h
    cases c? with
    | some cs =>
      dsimp only at h
      cases hd : dl with
      | nil => rw [hdata, hd] at hr; cases hr
      | cons r0 rest =>
        subst hd
        cases hvc : validateColumnNames cs ((r0 :: rest).headD []).length with
        | error m =>
          rw [if_pos (by simp)] at h
          rw [hvc] at h
          cases h
        | ok u2 =>
          obtain ⟨⟩ := u2
          obtain ⟨hn, hl⟩ := (validateColumnNames_ok_iff _ _).mp hvc
          rw [if_pos (by simp), hvc] at h
          dsimp only at h
          cases h
          rw [hdata] at hr
          exact (hlens r hr).trans hl.symm
    | none =>
      by_cases hd : dl.length = 0
      · rw [if_pos hd] at h
        cases h
        rw [hdata] at hr
        rw [List.length_eq_zero.mp hd] at hr
        cases hr
      · rw [if_neg hd] at h
        cases h
        rw [hdata] at hr
        rw [hcols]
        simp only [idxStrings_length]
        exact hlens r hr

/-! ### Row-object lemmas -/

theorem rowPairs_keys : ∀ (cols : List String) (row : List Value),
    (rowPairs cols row).map Prod.fst = cols := by
  intro cols
  induction cols with
  | nil => intro row; cases row <;> rfl
  | cons c cs ih => intro row; cases row <;> simp [rowPairs, ih]

theorem lastAssoc_none_of_not_mem {c : String} :
    ∀ (ps : List (String × Value)), c ∉ ps.map Prod.fst → lastAssoc ps c = none := by
  intro ps
  induction ps with
  | nil => intro _; rfl
  | cons p ps ih =>
    intro h
    simp only [List.map_cons, List.mem_cons] at h
    push_neg at h
    simp only [lastAssoc, ih h.2]
    rw [if_neg (fun he => h.1 he.symm)]

theorem lastAssoc_cons_ne (k : String) (v : Value) (ps : List (String × Value))
    (c : String) (h : k ≠ c) : lastAssoc ((k, v) :: ps) c = lastAssoc ps c := by
  simp only [lastAssoc]
  cases lastAssoc ps c with
  | some w => rfl
  | none => simp [h]

theorem lastAssoc_cons_self (c : String) (v : Value) (ps : List (String × Value))
    (h : lastAssoc ps c = none) : lastAssoc ((c, v) :: ps) c = some v := by
  simp [lastAssoc, h]

/-- Re-materializing a row object over distinct column names returns the
stored row (`columns.map(col => row[col])` is the identity). -/
theorem row_materialize (cols : List String) :
    ∀ (row : List Value), cols.Nodup → row.length = cols.length →
    cols.map (fun c => jsRowGetV cols row c) = row := by
  induction cols with
  | nil =>
    intro row _ hlen
    cases row with
    | nil => rfl
    | cons v vs => simp at hlen
  | cons c cs ih =>
    intro row hnd hlen
    cases row with
    | nil => simp at hlen
    | cons v vs =>
      have hcn : c ∉ cs := (List.nodup_cons.mp hnd).1
      have hnd2 : cs.Nodup := (List.nodup_cons.mp hnd).2
      have hlen2 : vs.length = cs.length := by simpa using hlen
      have hpairs : rowPairs (c :: cs) (v :: vs) = (c, v) :: rowPairs cs vs := rfl
      have hhead : jsRowGetV (c :: cs) (v :: vs) c = v := by
        unfold jsRowGetV jsRowGet
        rw [hpairs, lastAssoc_cons_self c v _
          (lastAssoc_none_of_not_mem _ (by rw [rowPairs_keys]; exact hcn))]
        rfl
      have htail : ∀ c' ∈ cs, jsRowGetV (c :: cs) (v :: vs) c' = jsRowGetV cs vs c' := by
        intro c' hc'
        have hne : c ≠ c' := fun he => hcn (he ▸ hc')
        unfold jsRowGetV jsRowGet
        rw [hpairs, lastAssoc_cons_ne c v _ c' hne]
      calc (c :: cs).map (fun x => jsRowGetV (c :: cs) (v :: vs) x)
          = jsRowGetV (c :: cs) (v :: vs) c ::
              cs.map (fun x => jsRowGetV (c :: cs) (v :: vs) x) := by simp
        _ = v :: cs.map (fun x => jsRowGetV cs vs x) := by
            rw [hhead]
            congr 1
            exact List.map_congr_left htail
        _ = v :: vs := by rw [ih vs hnd2 hlen2]

/-! ### Key-map (insertion-ordered grouping) lemmas -/

theorem mem_firstDedup {a : String} : ∀ (l : List String), a ∈ firstDedup l ↔ a ∈ l := by
  intro l
  induction l with
  | nil => simp [firstDedup]
  | cons b l ih =>
    simp only [firstDedup, List.mem_cons, List.mem_filter]
    constructor
    · rintro (h | ⟨h1, _⟩)
      · exact Or.inl h
      · exact Or.inr (ih.mp h1)
    · rintro (h | h)
      · exact Or.inl h
      · by_cases hab : a = b
        · exact Or.inl hab
        · exact Or.inr ⟨ih.mpr h, by simp [hab]⟩

theorem nodup_firstDedup : ∀ (l : List String), (firstDedup l).Nodup := by
  intro l
  induction l with
  | nil => simp [firstDedup]
  | cons b l ih =>
    simp only [firstDedup, List.nodup_cons]
    refine ⟨fun hmem => ?_, ih.filter _⟩
    have := (List.mem_filter.mp hmem).2
    simp at this

theorem firstDedup_append_singleton (a : String) : ∀ (l : List String),
    firstDedup (l ++ [a]) = if a ∈ l then firstDedup l else firstDedup l ++ [a] := by
  intro l
  induction l with
  | nil => simp [firstDedup]
  | cons b l ih =>
    have hstep : firstDedup ((b :: l) ++ [a]) =
        b :: (firstDedup (l ++ [a])).filter (fun x => x ≠ b) := rfl
    rw [hstep, ih]
    by_cases hal : a ∈ l
    · rw [if_pos hal, if_pos (List.mem_cons_of_mem b hal)]
      rfl
    · rw [if_neg hal]
      by_cases hab : a = b
      · rw [if_pos (by simp [hab]), List.filter_append]
        simp [firstDedup, hab]
      · rw [if_neg (by simp [hab, hal]), List.filter_append]
        simp [firstDedup, hab]

theorem assocGet_map_keyed {α : Type} (h : String → α) : ∀ (ks : List String) (k0 : String),
    assocGet (ks.map (fun k => (k, h k))) k0 = if k0 ∈ ks then some (h k0) else none := by
  intro ks
  induction ks with
  | nil => intro k0; simp [assocGet]
  | cons k ks ih =>
    intro k0
    by_cases he : k = k0
    · subst he
      simp [assocGet, List.find?]
    · simp only [List.map_cons, assocGet] at ih ⊢
      rw [List.find?_cons_of_neg _ (by simp [he])]
      rw [ih k0]
      simp [Ne.symm he]

/-- The JS `Map` built by insertion equals its closed form: one entry per
distinct key in first-occurrence order, carrying that key's positions in
order. -/
theorem buildGroups_eq : ∀ (ps : List (String × Nat)), buildGroups ps = groupsSpec ps := by
  intro ps
  induction ps using List.reverseRecOn with
  | nil => rfl
  | append_singleton ps p ih =>
    have h1 : buildGroups (ps ++ [p]) = mapInsert (buildGroups ps) p.1 p.2 := by
      simp [buildGroups, List.foldl_append]
    rw [h1, ih]
    unfold groupsSpec mapInsert
    have hkeys : ∀ q ∈ (firstDedup (ps.map Prod.fst)).map
        (fun k => (k, (ps.filter (fun p2 => p2.1 = k)).map Prod.snd)), q.1 ∈ ps.map Prod.fst := by
      intro q hq
      obtain ⟨k, hk, hqe⟩ := List.mem_map.mp hq
      rw [← hqe]
      exact (mem_firstDedup _).mp hk
    by_cases hmem : p.1 ∈ ps.map Prod.fst
    · rw [if_pos ?side]
      case side =>
        rw [List.any_eq_true]
        refine ⟨(p.1, (ps.filter (fun p2 => p2.1 = p.1)).map Prod.snd), ?_, by simp⟩
        exact List.mem_map.mpr ⟨p.1, (mem_firstDedup _).mpr hmem, rfl⟩
      simp only [List.map_append, List.map_cons, List.map_nil, List.map_map]
      rw [firstDedup_append_singleton, if_pos hmem]
      apply List.map_congr_left
      intro k hk
      simp only [Function.comp_apply]
      by_cases hkp : k = p.1
      · subst hkp
        rw [if_pos rfl]
        simp [List.filter_append]
      · rw [if_neg (by simp [hkp])]
        have hne : ¬ p.1 = k := fun h2 => hkp h2.symm
        simp [List.filter_append, hne]
    · rw [if_neg ?side2]
      case side2 =>
        rw [Bool.not_eq_true, List.any_eq_false]
        intro q hq
        simp only [decide_eq_true_eq]
        intro habs
        exact hmem (habs ▸ hkeys q hq)
      simp only [List.map_append, List.map_cons, List.map_nil]
      rw [firstDedup_append_singleton, if_neg hmem, List.map_append]
      congr 1
      · apply List.map_congr_left
        intro k hk
        have hkp : ¬ p.1 = k := fun he => hmem (he ▸ (mem_firstDedup _).mp hk)
        simp only [List.filter_append, List.filter_cons, List.filter_nil]
        rw [if_neg (by simp [hkp])]
        simp
      · simp only [List.map_cons, List.map_nil, List.filter_append]
        have : ps.filter (fun p2 => p2.1 = p.1) = [] := by
          rw [List.filter_eq_nil_iff]
          intro q hq
          simp only [decide_eq_true_eq]
          intro habs
          exact hmem (habs ▸ List.mem_map_of_mem Prod.fst hq)
        simp [this]

theorem filter_length_split {α : Type} (p : α → Prop) [DecidablePred p] : ∀ (l : List α),
    (l.filter (fun a => p a)).length + (l.filter (fun a => ¬ p a)).length = l.length := by
  intro l
  induction l with
  | nil => rfl
  | cons a l ih => by_cases h : p a <;> simp [List.filter_cons, h, ← ih] <;> omega

/-- Filtering a keyed list by each key of a distinct, covering key list
partitions it: the filtered lengths sum to the full length. -/
theorem partition_sum : ∀ (ks : List String) (ps : List (String × Nat)),
    ks.Nodup → (∀ p ∈ ps, p.1 ∈ ks) →
    (ks.map (fun k => (ps.filter (fun q => q.1 = k)).length)).sum = ps.length := by
  intro ks
  induction ks with
  | nil =>
    intro ps _ hall
    cases ps with
    | nil => rfl
    | cons p ps => exact absurd (hall p (by simp)) (by simp)
  | cons k ks ih =>
    intro ps hnd hall
    simp only [List.map_cons, List.sum_cons]
    have hkn : k ∉ ks := (List.nodup_cons.mp hnd).1
    have hnd2 : ks.Nodup := (List.nodup_cons.mp hnd).2
    have hsplit := filter_length_split (fun q : String × Nat => q.1 = k) ps
    have hrest : ∀ k' ∈ ks, ps.filter (fun q => q.1 = k') =
        (ps.filter (fun q => ¬ (q.1 = k))).filter (fun q => q.1 = k') := by
      intro k' hk'
      have hne : k' ≠ k := fun he => hkn (he ▸ hk')
      rw [List.filter_filter]
      apply List.filter_congr
      intro q _
      by_cases hq : q.1 = k'
      · simp [hq, hne]
      · simp [hq]
    have hmap : ks.map (fun k' => (ps.filter (fun q => q.1 = k')).length) =
        ks.map (fun k' =>
          ((ps.filter (fun q => ¬ (q.1 = k))).filter (fun q => q.1 = k')).length) := by
      apply List.map_congr_left
      intro k' hk'
      rw [hrest k' hk']
    rw [hmap, ih (ps.filter (fun q => ¬ (q.1 = k))) hnd2 ?cover]
    case cover =>
      intro p hp
      have hm := List.mem_filter.mp hp
      have := hall p hm.1
      rcases List.mem_cons.mp this with h1 | h2
      · exact absurd (by simpa using h1) (by simpa using hm.2)
      · exact h2
    omega

theorem pairs_map_fst {α : Type} (f : α → String) (l : List α) :
    (l.map (fun i => (f i, i))).map Prod.fst = l.map f := by
  rw [List.map_map]; rfl

theorem pairs_filter_snd {α : Type} (f : α → String) (k : String) (l : List α) :
    ((l.map (fun i => (f i, i))).filter (fun p => p.1 = k)).map Prod.snd =
      l.filter (fun i => f i = k) := by
  induction l with
  | nil => rfl
  | cons a l ih =>
    simp only [List.map_cons, List.filter_cons]
    by_cases h : f a = k
    · simp [h, ih]
    · simp [h, ih]

/-- Looking up a key in a `buildGroups` map returns exactly the positions
carrying that key, in order, or `none` when the key never occurred. -/
theorem assocGet_buildGroups (ps : List (String × Nat)) (k : String) :
    assocGet (buildGroups ps) k =
      if k ∈ ps.map Prod.fst then some ((ps.filter (fun q => q.1 = k)).map Prod.snd)
      else none := by
  rw [buildGroups_eq]
  unfold groupsSpec
  rw [assocGet_map_keyed (fun k => (ps.filter (fun q => q.1 = k)).map Prod.snd)]
  by_cases h : k ∈ ps.map Prod.fst
  · rw [if_pos ((mem_firstDedup _).mpr h), if_pos h]
  · rw [if_neg (fun hc => h ((mem_firstDedup _).mp hc)), if_neg h]

/-- The group sizes of a `buildGroups` map sum to the number of inserted
positions. -/
theorem buildGroups_sum (ps : List (String × Nat)) :
    ((buildGroups ps).map (fun p => p.2.length)).sum = ps.length := by
  rw [buildGroups_eq]
  unfold groupsSpec
  rw [List.map_map]
  have hcomp : ((fun p : String × List Nat => p.2.length) ∘
      fun k => (k, (ps.filter (fun q => q.1 = k)).map Prod.snd)) =
      fun k => (ps.filter (fun q => q.1 = k)).length := by
    funext k
    simp
  rw [hcomp]
  exact partition_sum _ ps (nodup_firstDedup _)
    (fun p hp => (mem_firstDedup _).mpr (List.mem_map_of_mem Prod.fst hp))

theorem assocGet_self_of_nodup {α : Type} : ∀ (gs : List (String × α)),
    (gs.map Prod.fst).Nodup → ∀ p ∈ gs, assocGet gs p.1 = some p.2 := by
  intro gs
  induction gs with
  | nil => intro _ p hp; cases hp
  | cons q gs ih =>
    intro hnd p hp
    have hnd2 : (q.1 :: gs.map Prod.fst).Nodup := by simpa using hnd
    have hnd' := List.nodup_cons.mp hnd2
    rcases List.mem_cons.mp hp with h1 | h2
    · subst h1
      simp [assocGet, List.find?]
    · have hq : ¬ q.1 = p.1 := by
        intro he
        exact hnd'.1 (he ▸ List.mem_map_of_mem Prod.fst h2)
      unfold assocGet
      rw [List.find?_cons_of_neg _ (by simp [hq])]
      exact ih hnd'.2 p h2

/-- The keys of the single-column group map are distinct. -/
theorem createSingleColumnGroups_keys_nodup (df : DataFrame) (K : String) :
    ((createSingleColumnGroups df K).map Prod.fst).Nodup := by
  unfold createSingleColumnGroups
  rw [buildGroups_eq]
  unfold groupsSpec
  rw [List.map_map]
  have : ((Prod.fst ∘ fun k =>
      ((k : String), (((List.range df.rows).map (fun i => (jsToString (df.valueAt i K), i))).filter
        (fun p => p.1 = k)).map Prod.snd))) = id := by
    funext k; rfl
  rw [this, List.map_id]
  exact nodup_firstDedup _

/-- `groupBy(K).count()` on an existing key column `K ≠ "count"` succeeds and
evaluates to `singleCountDF`. -/
theorem groupCount_single_spec (df : DataFrame) (K : String)
    (hK : K ∈ df.columns) (hKc : K ≠ "count") :
    df.groupCount [K] = .ok (singleCountDF df K) := by
  have hgb : mkGroupBy df [K] =
      .ok ⟨df, [K], .single (createSingleColumnGroups df K)⟩ := by
    unfold mkGroupBy
    rw [List.find?_cons_of_neg _ (by simp [hK])]
    rfl
  unfold DataFrame.groupCount
  rw [hgb]
  show GroupBy.countAgg _ = _
  set m := createSingleColumnGroups df K with hm
  have hmnd := createSingleColumnGroups_keys_nodup df K
  unfold GroupBy.countAgg
  have hkeys : GroupBy.groupKeys ⟨df, [K], .single m⟩ = m.map (fun p => [p.1]) := rfl
  rw [hkeys, List.map_map]
  have hrows : (m.map ((fun key => buildResultRow [K] key
      [("count", .num ((GroupBy.rowIndicesFor ⟨df, [K], .single m⟩ key).length : ℚ))]) ∘
        (fun p => [p.1]))) =
      m.map (fun p => [(K, Value.str p.1), ("count", Value.num (p.2.length : ℚ))]) := by
    apply List.map_congr_left
    intro p hp
    simp only [Function.comp_apply]
    have hidx : GroupBy.rowIndicesFor ⟨df, [K], .single m⟩ [p.1] = p.2 := by
      show (assocGet m p.1).getD [] = p.2
      rw [assocGet_self_of_nodup m hmnd p hp]
      rfl
    rw [hidx]
    unfold buildResultRow
    simp only [List.length_cons, List.length_nil, List.range_succ, List.range_zero,
      List.nil_append, List.foldl_cons, List.foldl_nil, List.getD, List.get?]
    show objSet (objSet [] K (Value.str p.1)) "count" (Value.num (p.2.length : ℚ)) = _
    unfold objSet
    simp [hKc]
  rw [hrows]
  unfold createResultDataFrame
  cases hme : m with
  | nil =>
    simp only [List.map_nil, List.isEmpty_nil, if_pos]
    unfold singleCountDF
    rw [← hm, hme]
    rfl
  | cons p0 ms =>
    rw [← hme]
    have hne : (m.map (fun p =>
        [(K, Value.str p.1), ("count", Value.num (p.2.length : ℚ))])).isEmpty = false := by
      rw [hme]; rfl
    rw [if_neg (by simp [hne, hme])]
    rw [if_pos rfl]
    have hcell : ∀ (p : String × List Nat),
        ([K, "count"]).map (fun c =>
          match assocGet [(K, Value.str p.1), ("count", Value.num (p.2.length : ℚ))] c with
          | some v => if v = .undef then .null else v
          | none => Value.null) = [Value.str p.1, Value.num (p.2.length : ℚ)] := by
      intro p
      have h1 : assocGet [(K, Value.str p.1), ("count", Value.num (p.2.length : ℚ))] K =
          some (Value.str p.1) := by
        simp [assocGet, List.find?]
      have h2 : assocGet [(K, Value.str p.1), ("count", Value.num (p.2.length : ℚ))] "count" =
          some (Value.num (p.2.length : ℚ)) := by
        unfold assocGet
        rw [List.find?_cons_of_neg _ (by simp [hKc])]
        simp [List.find?]
      simp only [List.map_cons, List.map_nil, h1, h2]
      rfl
    rw [show (([K] : List String) ++ ["count"]) = [K, "count"] from rfl]
    rw [List.map_map]
    have harr : (m.map ((fun row => ([K, "count"]).map (fun c =>
        match assocGet row c with
        | some v => if v = .undef then .null else v
        | none => Value.null)) ∘
          (fun p => [(K, Value.str p.1), ("count", Value.num (p.2.length : ℚ))]))) =
        m.map (fun p => [Value.str p.1, Value.num (p.2.length : ℚ)]) := by
      apply List.map_congr_left
      intro p _
      exact hcell p
    rw [harr]
    have hmk := @mkDataFrame_ok_of (m.map (fun p =>
        [Value.str p.1, Value.num (p.2.length : ℚ)])) [K, "count"]
      (by intro r hr; obtain ⟨p, _, hpe⟩ := List.mem_map.mp hr; rw [← hpe]; rfl)
      (by simp [hKc])
    rw [hmk]
    unfold singleCountDF
    simp [← hm]

/-! ### Claim theorems: grouping -/

/-- C8 (amended): for every Table and every existing key column `K` other
than `"count"` itself, `groupBy(K).count()` succeeds, its columns are exactly
`[K, "count"]`, it has one row per group entry holding that group's size, and
the sizes sum to the Table's row count (grouping by a column named `"count"`
instead raises the duplicate-column validation error, as the counterexample
shows). -/
theorem c8_count_partition (df : DataFrame) (K : String)
    (hK : K ∈ df.columns) (hKc : K ≠ "count") :
    ∃ res, df.groupCount [K] = .ok res ∧
      res.columns = [K, "count"] ∧
      res.data = (createSingleColumnGroups df K).map
        (fun p => [.str p.1, .num (p.2.length : ℚ)]) ∧
      ((createSingleColumnGroups df K).map (fun p => p.2.length)).sum = df.rows := by
  refine ⟨singleCountDF df K, groupCount_single_spec df K hK hKc, rfl, rfl, ?_⟩
  unfold createSingleColumnGroups
  rw [buildGroups_sum]
  simp

theorem c8_witness :
    ∃ res, exU.groupCount ["k"] = .ok res ∧
      res.columns = ["k", "count"] ∧
      res.data = (createSingleColumnGroups exU "k").map
        (fun p => [.str p.1, .num (p.2.length : ℚ)]) ∧
      ((createSingleColumnGroups exU "k").map (fun p => p.2.length)).sum = exU.rows :=
  c8_count_partition exU "k" (by decide) (by decide)

/-- C3 (amended): every aggregation has exactly one row per distinct
(stringified) key tuple; for *single-key* grouping the rows appear in
first-occurrence order of the keys — `count()` yields, for each distinct key
in first-occurrence order, the number of source rows carrying it — while for
*multi-key* grouping the rows appear in JS object-property enumeration order,
which visits integer-like key strings in ascending numeric order first (at
the concrete input `exAB`, the group first encountered second comes out
first). -/
theorem c3_group_row_order (df : DataFrame) (K : String)
    (hK : K ∈ df.columns) (hKc : K ≠ "count") :
    (∃ res, df.groupCount [K] = .ok res ∧
      res.data = (firstDedup (groupKeyCells df K)).map (fun k =>
        [.str k, .num ((((List.range df.rows).filter
          (fun i => jsToString (df.valueAt i K) = k)).length : ℚ))])) ∧
    exAB.groupCount ["a", "b"] =
      .ok ⟨["a", "b", "count"], ["0", "1"],
        [[.str "2", .str "1", .num 1], [.str "10", .str "1", .num 1]], 2, 3⟩ := by
  constructor
  · refine ⟨singleCountDF df K, groupCount_single_spec df K hK hKc, ?_⟩
    show (createSingleColumnGroups df K).map
        (fun p => [Value.str p.1, Value.num (p.2.length : ℚ)]) = _
    unfold createSingleColumnGroups
    rw [buildGroups_eq]
    unfold groupsSpec
    rw [List.map_map, pairs_map_fst]
    show _ = (firstDedup (groupKeyCells df K)).map _
    unfold groupKeyCells
    apply List.map_congr_left
    intro k _
    simp only [Function.comp_apply]
    rw [pairs_filter_snd]
  · decide

theorem c3_witness :
    (∃ res, exU.groupCount ["k"] = .ok res ∧
      res.data = (firstDedup (groupKeyCells exU "k")).map (fun k =>
        [.str k, .num ((((List.range exU.rows).filter
          (fun i => jsToString (exU.valueAt i "k") = k)).length : ℚ))])) ∧
    exAB.groupCount ["a", "b"] =
      .ok ⟨["a", "b", "count"], ["0", "1"],
        [[.str "2", .str "1", .num 1], [.str "10", .str "1", .num 1]], 2, 3⟩ :=
  c3_group_row_order exU "k" (by decide) (by decide)

/-! ### Claim theorems: merge validation and aliasing -/

theorem validateJoinKeys_ok (left right : DataFrame) : ∀ (ks : List String),
    (∀ k ∈ ks, k ∈ left.columns ∧ k ∈ right.columns) →
    validateJoinKeys left right ks = .ok () := by
  intro ks
  induction ks with
  | nil => intro _; rfl
  | cons k ks ih =>
    intro h
    unfold validateJoinKeys
    rw [if_neg (by simp [(h k (by simp)).1]), if_neg (by simp [(h k (by simp)).2])]
    exact ih (fun k2 hk2 => h k2 (by simp [hk2]))

/-- C2 (amended): for a pair of *non-empty* Tables whose join keys exist on
both sides, any join type outside `{inner, left, right, outer}` makes `merge`
raise the validation error listing the valid types, before any row
processing; with a zero-row side the empty-input short circuits return a
Table first instead (counterexample). -/
theorem c2_invalid_how (left right : DataFrame) (joinKeys suffixes : List String)
    (how : String) (hl : left.rows ≠ 0) (hr : right.rows ≠ 0)
    (hkeys : ∀ k ∈ joinKeys, k ∈ left.columns ∧ k ∈ right.columns)
    (hhow : ¬ (["inner", "left", "right", "outer"] : List String).contains how) :
    mergeImpl left right joinKeys how suffixes =
      .error (.validation ("Invalid join type " ++ sq ++ how ++ sq ++
        ". Must be one of: inner, left, right, outer")) := by
  unfold mergeImpl
  rw [if_neg (by simp [hl]), if_neg hl, if_neg hr,
    validateJoinKeys_ok left right joinKeys hkeys]
  dsimp only
  rw [if_pos hhow]

theorem c2_witness :
    mergeImpl exL exR ["k"] "banana" ["_x", "_y"] =
      .error (.validation ("Invalid join type " ++ sq ++ "banana" ++ sq ++
        ". Must be one of: inner, left, right, outer")) :=
  c2_invalid_how exL exR ["k"] ["_x", "_y"] "banana" (by decide) (by decide)
    (by decide) (by decide)

theorem map_fresh_ne_alias (X : Except PdError DataFrame) :
    Except.map MergeOut.fresh X ≠ .ok .aliasLeft ∧
      Except.map MergeOut.fresh X ≠ .ok .aliasRight := by
  cases X <;> simp [Except.map]

/-- C6 (amended): every merge result is either a freshly constructed Table or
one of the two inputs, and the *input object itself* is returned exactly in
the empty-side short circuits: the left input when the right side has zero
rows under `how ∈ {left, outer}`, the right input when the left side has zero
rows under `how ∈ {right, outer}`.  All other operations (and all other merge
paths) end in a fresh construction. -/
theorem c6_alias_characterization (left right : DataFrame)
    (joinKeys suffixes : List String) (how : String) :
    (mergeImpl left right joinKeys how suffixes = .ok .aliasLeft ↔
      left.rows ≠ 0 ∧ right.rows = 0 ∧ (how = "left" ∨ how = "outer")) ∧
    (mergeImpl left right joinKeys how suffixes = .ok .aliasRight ↔
      left.rows = 0 ∧ right.rows ≠ 0 ∧ (how = "right" ∨ how = "outer")) := by
  have hmk : (mkDataFrame [] none).map MergeOut.fresh = .ok (.fresh emptyDF) := rfl
  unfold mergeImpl
  by_cases h00 : left.rows = 0 ∧ right.rows = 0
  · rw [if_pos h00, hmk]
    simp [h00.1, h00.2]
  · rw [if_neg h00]
    by_cases hl0 : left.rows = 0
    · rw [if_pos hl0]
      have hr0 : right.rows ≠ 0 := fun hc => h00 ⟨hl0, hc⟩
      by_cases hro : how = "right" ∨ how = "outer"
      · rw [if_pos hro]
        simp [hl0, hr0, hro]
      · rw [if_neg hro, hmk]
        simp [hl0, hro]
    · rw [if_neg hl0]
      by_cases hr0 : right.rows = 0
      · rw [if_pos hr0]
        by_cases hlo : how = "left" ∨ how = "outer"
        · rw [if_pos hlo]
          simp [hl0, hr0, hlo]
        · rw [if_neg hlo, hmk]
          simp [hr0, hlo]
      · rw [if_neg hr0]
        cases hv : validateJoinKeys left right joinKeys with
        | error e => simp [hl0, hr0]
        | ok u =>
          dsimp only
          constructor
          · constructor
            · intro h
              exfalso
              split at h
              · cases h
              · split at h
                · cases h
                · exact (map_fresh_ne_alias _).1 h
            · rintro ⟨_, h2, _⟩
              exact absurd h2 hr0
          · constructor
            · intro h
              exfalso
              split at h
              · cases h
              · split at h
                · cases h
                · exact (map_fresh_ne_alias _).2 h
            · rintro ⟨h1, _, _⟩
              exact absurd h1 hl0

/-! ### Claim theorems: string-keyed comparison (C5) -/

/-- C5 (amended): grouping compares keys by their `String()` serialization,
so the number `1` and the string `"1"` fall into one group (a single group of
size 2 here); merge serializes key tuples with `JSON.stringify`, which keeps
numbers and strings distinct, so the same two key values do *not* match under
merge (zero result rows). -/
theorem c5_string_keys :
    jsToString (.num 1) = jsToString (.str "1") ∧
    exU.groupCount ["k"] = .ok ⟨["k", "count"], ["0"], [[.str "1", .num 2]], 1, 2⟩ ∧
    jsonKeyOf [.num 1] ≠ jsonKeyOf [.str "1"] ∧
    mergeDF exM1 exM2 ["k"] "inner" ["_x", "_y"] = .ok ⟨["k", "v"], [], [], 0, 2⟩ := by
  refine ⟨by decide, by decide, by decide, by decide⟩

/-! ### Claim theorems: filter (C7) -/

theorem range_filterMap_rows (cols : List String) (cond : (String → Value) → Bool) :
    ∀ (l : List (List Value)), (∀ r ∈ l, r.length = cols.length) → cols.Nodup →
    ((List.range l.length).filterMap (fun i =>
      if cond (fun c => jsRowGetV cols (l.getD i []) c) then
        some (cols.map (fun c => jsRowGetV cols (l.getD i []) c))
      else none)) =
    l.filter (fun r => cond (fun c => jsRowGetV cols r c)) := by
  intro l
  induction l with
  | nil => intro _ _; rfl
  | cons r l ih =>
    intro hlen hnd
    rw [List.length_cons, List.range_succ_eq_map, List.filterMap_cons, List.filterMap_map]
    have htail : ((fun i =>
        if cond (fun c => jsRowGetV cols ((r :: l).getD i []) c) then
          some (cols.map (fun c => jsRowGetV cols ((r :: l).getD i []) c))
        else none) ∘ Nat.succ) = (fun i =>
        if cond (fun c => jsRowGetV cols (l.getD i []) c) then
          some (cols.map (fun c => jsRowGetV cols (l.getD i []) c))
        else none) := by
      funext i
      simp [Function.comp_apply, List.getD_cons_succ]
    rw [htail, ih (fun r2 hr2 => hlen r2 (by simp [hr2])) hnd]
    have hmat : cols.map (fun c => jsRowGetV cols r c) = r :=
      row_materialize cols r hnd (hlen r (by simp))
    simp only [List.getD_cons_zero, List.filter_cons]
    by_cases hc : cond (fun c => jsRowGetV cols r c)
    · rw [if_pos hc, if_pos hc, hmat]
    · rw [if_neg hc, if_neg hc]

/-- A filter on a well-shaped frame with distinct column names always
succeeds and evaluates to `filteredDF`: the kept data rows, re-indexed, under
the unchanged column list. -/
theorem filterRows_eq (df : DataFrame) (cond : (String → Value) → Bool)
    (hwf : df.WFshape) (hnd : df.columns.Nodup) :
    df.filterRows cond = .ok (filteredDF df cond) := by
  obtain ⟨hrows, hcols, hidx, hlens⟩ := hwf
  unfold DataFrame.filterRows DataFrame.rowFun
  have hfd : (List.range df.rows).filterMap (fun i =>
      if cond (fun c => jsRowGetV df.columns (df.data.getD i []) c) then
        some (df.columns.map (fun c => jsRowGetV df.columns (df.data.getD i []) c))
      else none) = keptRows df cond := by
    unfold keptRows
    rw [hrows]
    exact range_filterMap_rows df.columns cond df.data
      (fun r hr => (hlens r hr).trans hcols) hnd
  rw [hfd]
  by_cases hke : keptRows df cond = []
  · rw [if_pos (by simp [hke])]
    unfold filteredDF
    rw [hke]
    rfl
  · rw [if_neg (by simp [hke])]
    rw [@mkDataFrame_ok_of (keptRows df cond) df.columns
      (fun r hr => (hlens r (List.mem_of_mem_filter hr)).trans hcols) hnd]
    rfl

/-- C7: filtering twice equals filtering once with the conjunction — same
rows, same order — and a filter's result always keeps the source's column
list, also when zero rows survive. -/
theorem c7_filter_compose (df : DataFrame) (P Q : (String → Value) → Bool)
    (hwf : df.WFshape) (hnd : df.columns.Nodup) :
    (df.filterRows P).bind (fun d1 => d1.filterRows Q) =
      df.filterRows (fun r => P r && Q r) ∧
    ∀ (cond : (String → Value) → Bool) (d1 : DataFrame),
      df.filterRows cond = .ok d1 → d1.columns = df.columns := by
  have hwfP : (filteredDF df P).WFshape := by
    obtain ⟨hrows, hcols, hidx, hlens⟩ := hwf
    refine ⟨rfl, by simp [filteredDF, hcols], by simp [filteredDF, idxStrings_length], ?_⟩
    intro r hr
    exact (hlens r (List.mem_of_mem_filter hr)).trans hcols
  constructor
  · rw [filterRows_eq df P hwf hnd]
    show (filteredDF df P).filterRows Q = _
    rw [filterRows_eq (filteredDF df P) Q hwfP hnd,
      filterRows_eq df (fun r => P r && Q r) hwf hnd]
    have hdata : keptRows (filteredDF df P) Q = keptRows df (fun r => P r && Q r) := by
      show (keptRows df P).filter _ = _
      unfold keptRows
      rw [List.filter_filter]
      exact List.filter_congr (fun a _ => Bool.and_comm _ _)
    have hrec : filteredDF (filteredDF df P) Q = filteredDF df (fun r => P r && Q r) := by
      show (⟨(filteredDF df P).columns, idxStrings (keptRows (filteredDF df P) Q).length,
        keptRows (filteredDF df P) Q, (keptRows (filteredDF df P) Q).length,
        (filteredDF df P).columns.length⟩ : DataFrame) = _
      rw [hdata]
      rfl
    rw [hrec]
  · intro cond d1 hd1
    rw [filterRows_eq df cond hwf hnd] at hd1
    cases hd1
    rfl

theorem c7_witness :
    (exU.filterRows (fun r => r "v" = .num 10)).bind
        (fun d1 => d1.filterRows (fun r => r "k" = .num 1)) =
      exU.filterRows (fun r => (decide (r "v" = .num 10)) &&
        (decide (r "k" = .num 1))) ∧
    ∀ (cond : (String → Value) → Bool) (d1 : DataFrame),
      exU.filterRows cond = .ok d1 → d1.columns = exU.columns :=
  c7_filter_compose exU (fun r => r "v" = .num 10) (fun r => r "k" = .num 1)
    (by refine ⟨rfl, rfl, rfl, ?_⟩; decide) (by decide)

/-! ### Claim theorems: std per-cell null policy (C4) -/

theorem assocGet_cons_pos (p : String × Value) (l : List (String × Value)) (c : String)
    (h : p.1 = c) : assocGet (p :: l) c = some p.2 := by
  unfold assocGet
  rw [List.find?_cons_of_pos _ (by simp [h])]
  rfl

theorem assocGet_cons_neg (p : String × Value) (l : List (String × Value)) (c : String)
    (h : ¬ p.1 = c) : assocGet (p :: l) c = assocGet l c := by
  unfold assocGet
  rw [List.find?_cons_of_neg _ (by simp [h])]

theorem assocGet_none_of_not_any (o : List (String × Value)) (k : String)
    (h : ¬ o.any (fun p => p.1 = k)) : assocGet o k = none := by
  unfold assocGet
  rw [List.find?_eq_none.mpr]
  · rfl
  · intro p hp
    simp only [List.any_eq_true] at h
    push_neg at h
    simpa using h p hp

theorem assocGet_map_upd (k : String) (v : Value) :
    ∀ (l : List (String × Value)) (c : String),
    assocGet (l.map (fun p => if p.1 = k then (p.1, v) else p)) c =
      if c = k then (if k ∈ l.map Prod.fst then some v else none) else assocGet l c := by
  intro l
  induction l with
  | nil => intro c; by_cases h : c = k <;> simp [assocGet, h]
  | cons p l ih =>
    intro c
    rw [List.map_cons]
    by_cases hpk : p.1 = k
    · by_cases hck : c = k
      · subst hck
        rw [if_pos hpk, if_pos rfl, assocGet_cons_pos (p.1, v) _ c hpk,
          if_pos (show c ∈ (p :: l).map Prod.fst by simp [hpk])]
      · rw [if_pos hpk, if_neg hck]
        have hpn : ¬ p.1 = c := fun he => hck (he ▸ hpk)
        rw [assocGet_cons_neg (p.1, v) _ c hpn, assocGet_cons_neg p _ c hpn]
        have hih := ih c
        rw [if_neg hck] at hih
        exact hih
    · rw [if_neg hpk]
      by_cases hpc : p.1 = c
      · by_cases hck : c = k
        · exact absurd (hck ▸ hpc) hpk
        · rw [if_neg hck, assocGet_cons_pos p _ c hpc, assocGet_cons_pos p _ c hpc]
      · rw [assocGet_cons_neg p _ c hpc, ih c]
        by_cases hck : c = k
        · subst hck
          rw [if_pos rfl, if_pos rfl]
          by_cases hm : c ∈ l.map Prod.fst
          · rw [if_pos hm, if_pos (by simp [hm])]
          · rw [if_neg hm, if_neg (by
              rw [List.map_cons, List.mem_cons]
              push_neg
              exact ⟨fun he => hpk he.symm, hm⟩)]
        · rw [if_neg hck, if_neg hck, assocGet_cons_neg p _ c hpc]

theorem assocGet_append_single (o : List (String × Value)) (k : String) (v : Value)
    (c : String) :
    assocGet (o ++ [(k, v)]) c =
      match assocGet o c with
      | some w => some w
      | none => if k = c then some v else none := by
  induction o with
  | nil =>
    show assocGet [(k, v)] c = _
    have h0 : assocGet ([] : List (String × Value)) c = none := rfl
    rw [h0]
    by_cases h : k = c
    · rw [assocGet_cons_pos _ _ _ h]
      dsimp only
      rw [if_pos h]
    · rw [assocGet_cons_neg _ _ _ h, h0]
      dsimp only
      rw [if_neg h]
  | cons p o ih =>
    rw [List.cons_append]
    by_cases hpc : p.1 = c
    · rw [assocGet_cons_pos _ _ _ hpc, assocGet_cons_pos _ _ _ hpc]
    · rw [assocGet_cons_neg _ _ _ hpc, assocGet_cons_neg _ _ _ hpc, ih]

/-- The one assignment law the object model needs: setting key `k` makes `k`
read back the new value and leaves every other key unchanged. -/
theorem assocGet_objSet (o : List (String × Value)) (k : String) (v : Value) (c : String) :
    assocGet (objSet o k v) c = if c = k then some v else assocGet o c := by
  unfold objSet
  by_cases hany : o.any (fun p => p.1 = k)
  · rw [if_pos hany, assocGet_map_upd]
    by_cases hck : c = k
    · rw [if_pos hck, if_pos hck]
      rw [if_pos (by
        obtain ⟨p, hp, hpe⟩ := List.any_eq_true.mp hany
        simp only [decide_eq_true_eq] at hpe
        exact hpe ▸ List.mem_map_of_mem Prod.fst hp)]
    · rw [if_neg hck, if_neg hck]
  · rw [if_neg hany, assocGet_append_single]
    by_cases hck : c = k
    · subst hck
      rw [assocGet_none_of_not_any o c hany]
    · cases hg : assocGet o c with
      | some w => rw [if_neg hck]
      | none =>
        rw [if_neg hck]
        dsimp only
        rw [if_neg (fun he => hck he.symm)]

/-- The fold that copies the aggregation entries onto the keyed row object:
when the entry keys are distinct, a lookup reads the entry's value, falling
back to the keyed part. -/
theorem foldl_objSet_pairs_get : ∀ (aggs : List (String × Value))
    (keyed : List (String × Value)) (c : String), (aggs.map Prod.fst).Nodup →
    assocGet (aggs.foldl (fun row p => objSet row p.1 p.2) keyed) c =
      match assocGet aggs c with
      | some v => some v
      | none => assocGet keyed c := by
  intro aggs
  induction aggs with
  | nil => intro keyed c _; simp [assocGet, List.find?]
  | cons p aggs ih =>
    intro keyed c hnd
    have hnd2 : (p.1 :: aggs.map Prod.fst).Nodup := by simpa using hnd
    have hp1 := (List.nodup_cons.mp hnd2).1
    rw [List.foldl_cons, ih _ c (List.nodup_cons.mp hnd2).2]
    by_cases hcp : c = p.1
    · have hnone : assocGet aggs c = none := by
        apply assocGet_none_of_not_any
        intro hany
        obtain ⟨q, hq, hqe⟩ := List.any_eq_true.mp hany
        simp only [decide_eq_true_eq] at hqe
        exact hp1 ((hqe.trans hcp) ▸ List.mem_map_of_mem Prod.fst hq)
      rw [hnone, assocGet_objSet, if_pos hcp, assocGet_cons_pos p _ c hcp.symm]
    · rw [assocGet_objSet, if_neg hcp,
        assocGet_cons_neg p _ c (fun he => hcp he.symm)]

/-- A fold of keyed assignments whose keys all differ from `c` leaves the
lookup of `c` unchanged. -/
theorem foldl_objSet_range_get (kf : Nat → String) (vf : Nat → Value) (c : String) :
    ∀ (l : List Nat) (r0 : List (String × Value)), (∀ i ∈ l, kf i ≠ c) →
    assocGet (l.foldl (fun r i => objSet r (kf i) (vf i)) r0) c = assocGet r0 c := by
  intro l
  induction l with
  | nil => intro r0 _; rfl
  | cons i l ih =>
    intro r0 h
    rw [List.foldl_cons, ih _ (fun i2 hi2 => h i2 (by simp [hi2])), assocGet_objSet,
      if_neg (fun he => h i (by simp) he.symm)]

theorem getD_mem_of_lt (l : List String) (i : Nat) (d : String) (h : i < l.length) :
    l.getD i d ∈ l := by
  cases hg : l.get? i with
  | none => exact absurd (List.get?_eq_none.mp hg) (by omega)
  | some v =>
    have hv := List.get?_mem hg
    simp only [List.getD, hg, Option.getD_some]
    exact hv

theorem objSet_keys (o : List (String × Value)) (k : String) (v : Value) :
    (objSet o k v).map Prod.fst =
      if o.any (fun p => p.1 = k) then o.map Prod.fst else o.map Prod.fst ++ [k] := by
  unfold objSet
  by_cases hany : o.any (fun p => p.1 = k)
  · rw [if_pos hany, if_pos hany, List.map_map]
    apply List.map_congr_left
    intro p _
    by_cases hp : p.1 = k <;> simp [hp]
  · rw [if_neg hany, if_neg hany, List.map_append]
    rfl

theorem objSet_keys_nodup (o : List (String × Value)) (k : String) (v : Value)
    (h : (o.map Prod.fst).Nodup) : ((objSet o k v).map Prod.fst).Nodup := by
  rw [objSet_keys]
  by_cases hany : o.any (fun p => p.1 = k)
  · rw [if_pos hany]; exact h
  · rw [if_neg hany]
    have hk : k ∉ o.map Prod.fst := by
      intro hm
      obtain ⟨p, hp, hpe⟩ := List.mem_map.mp hm
      exact hany (List.any_eq_true.mpr ⟨p, hp, by simp [hpe]⟩)
    have : (o.map Prod.fst ++ k :: []).Nodup := by
      rw [List.nodup_middle]
      simpa using List.nodup_cons.mpr ⟨by simpa using hk, h⟩
    simpa using this

theorem aggStep_keys_nodup (sqrt : ℚ → ℚ) (method : String) (df : DataFrame)
    (gcols : List String) (ridx : List Nat) :
    ∀ (pairs : List (Nat × String)) (aggs0 : List (String × Value)),
    (aggs0.map Prod.fst).Nodup →
    (((pairs.foldl (aggStep sqrt method df gcols ridx) aggs0)).map Prod.fst).Nodup := by
  intro pairs
  induction pairs with
  | nil => intro aggs0 h; exact h
  | cons p pairs ih =>
    intro aggs0 h
    rw [List.foldl_cons]
    apply ih
    unfold aggStep
    by_cases hg : gcols.contains p.2
    · rw [if_pos hg]; exact h
    · rw [if_neg hg]
      by_cases hn : (groupColumnNumerics df ridx p.1).length > 0
      · rw [if_pos hn]; exact objSet_keys_nodup _ _ _ h
      · rw [if_neg hn]; exact h

/-- Columns other than `c` leave the lookup of `c` through the aggregation
fold unchanged. -/
theorem aggsGet_skip (sqrt : ℚ → ℚ) (method : String) (df : DataFrame)
    (gcols : List String) (ridx : List Nat) (c : String) :
    ∀ (cols : List String) (n : Nat) (aggs0 : List (String × Value)), c ∉ cols →
    assocGet ((List.enumFrom n cols).foldl (aggStep sqrt method df gcols ridx) aggs0) c =
      assocGet aggs0 c := by
  intro cols
  induction cols with
  | nil => intro n aggs0 _; rfl
  | cons a cols ih =>
    intro n aggs0 hc
    have hne : a ≠ c := fun he => hc (he ▸ List.mem_cons_self a cols)
    have hstep : List.enumFrom n (a :: cols) = (n, a) :: List.enumFrom (n + 1) cols := rfl
    rw [hstep, List.foldl_cons, ih (n + 1) _ (fun hm => hc (List.mem_cons_of_mem a hm))]
    show assocGet (aggStep sqrt method df gcols ridx aggs0 (n, a)) c = assocGet aggs0 c
    unfold aggStep
    by_cases hg : gcols.contains (n, a).2
    · rw [if_pos hg]
    · rw [if_neg hg]
      by_cases hn : (groupColumnNumerics df ridx (n, a).1).length > 0
      · rw [if_pos hn, assocGet_objSet, if_neg (fun he => hne he.symm)]
      · rw [if_neg hn]

/-- The aggregation entry the per-column fold leaves for a non-grouping
column `c` occurring once: the aggregation of its numeric values when any
remain, the untouched initial entry otherwise. -/
theorem aggsGet_main (sqrt : ℚ → ℚ) (method : String) (df : DataFrame)
    (gcols : List String) (ridx : List Nat) (c : String) :
    ∀ (cols : List String) (n : Nat) (aggs0 : List (String × Value)),
    cols.Nodup → c ∈ cols → gcols.contains c = false →
    assocGet ((List.enumFrom n cols).foldl (aggStep sqrt method df gcols ridx) aggs0) c =
      (if (groupColumnNumerics df ridx (n + cols.indexOf c)).length > 0 then
        some (computeAggregation sqrt method (groupColumnNumerics df ridx (n + cols.indexOf c)))
      else assocGet aggs0 c) := by
  intro cols
  induction cols with
  | nil => intro n aggs0 _ hc _; cases hc
  | cons a cols ih =>
    intro n aggs0 hnd hc hgc
    have hstep : List.enumFrom n (a :: cols) = (n, a) :: List.enumFrom (n + 1) cols := rfl
    rw [hstep, List.foldl_cons]
    by_cases hac : a = c
    · have hnotin : c ∉ cols := hac ▸ (List.nodup_cons.mp hnd).1
      rw [aggsGet_skip sqrt method df gcols ridx c cols (n + 1) _ hnotin]
      have hidx : (a :: cols).indexOf c = 0 := by
        simp [List.indexOf_cons, hac]
      rw [hidx, Nat.add_zero]
      show assocGet (aggStep sqrt method df gcols ridx aggs0 (n, a)) c = _
      unfold aggStep
      rw [if_neg (show ¬ gcols.contains (n, a).2 = true by simp only [hac]; simpa using hgc)]
      by_cases hn : (groupColumnNumerics df ridx n).length > 0
      · rw [if_pos hn, if_pos (by simpa using hn), assocGet_objSet,
          if_pos (show c = (n, a).2 from hac.symm)]
      · rw [if_neg hn, if_neg (by simpa using hn)]
    · have hc2 : c ∈ cols := by
        rcases List.mem_cons.mp hc with h1 | h2
        · exact absurd h1.symm hac
        · exact h2
      rw [ih (n + 1) _ (List.nodup_cons.mp hnd).2 hc2 hgc]
      have hidx : (a :: cols).indexOf c = cols.indexOf c + 1 := by
        simp [List.indexOf_cons, fun he => hac (by simpa using he)]
      have harith : n + (a :: cols).indexOf c = n + 1 + cols.indexOf c := by
        rw [hidx]; omega
      rw [harith]
      have hkeep : assocGet (aggStep sqrt method df gcols ridx aggs0 (n, a)) c =
          assocGet aggs0 c := by
        unfold aggStep
        by_cases hg : gcols.contains (n, a).2
        · rw [if_pos hg]
        · rw [if_neg hg]
          by_cases hn : (groupColumnNumerics df ridx (n, a).1).length > 0
          · rw [if_pos hn, assocGet_objSet, if_neg (fun he => hac (by simpa using he.symm))]
          · rw [if_neg hn]
      rw [hkeep]

theorem map_getD_indexOf {α : Type} (f : String → α) (d : α) :
    ∀ (l : List String) (c : String), c ∈ l → (l.map f).getD (l.indexOf c) d = f c := by
  intro l
  induction l with
  | nil => intro c hc; cases hc
  | cons a l ih =>
    intro c hc
    by_cases hac : a = c
    · subst hac
      have h0 : (a :: l).indexOf a = 0 := by simp [List.indexOf_cons]
      rw [h0]
      rfl
    · have hstep : (a :: l).indexOf c = l.indexOf c + 1 := by
        simp [List.indexOf_cons, fun he => hac (by simpa using he)]
      rw [hstep, List.map_cons, List.getD_cons_succ]
      apply ih c
      rcases List.mem_cons.mp hc with h1 | h2
      · exact absurd h1.symm hac
      · exact h2

theorem getD_map_lt {α β : Type} (f : α → β) : ∀ (l : List α) (j : Nat) (d : β) (d0 : α),
    j < l.length → (l.map f).getD j d = f (l.getD j d0) := by
  intro l
  induction l with
  | nil => intro j d d0 h; simp at h
  | cons a l ih =>
    intro j d d0 h
    cases j with
    | zero => rfl
    | succ j =>
      rw [List.map_cons, List.getD_cons_succ, List.getD_cons_succ]
      exact ih j d d0 (by simpa using h)

/-- Reading a non-grouping name from `_buildResultRow`'s object falls through
the key part to the aggregation entries. -/
theorem buildResultRow_get (gcols keyArray : List String)
    (aggs : List (String × Value)) (c : String)
    (hndaggs : (aggs.map Prod.fst).Nodup) (hkeys : ∀ k ∈ gcols, k ≠ c) :
    assocGet (buildResultRow gcols keyArray aggs) c = assocGet aggs c := by
  unfold buildResultRow
  rw [foldl_objSet_pairs_get _ _ _ hndaggs]
  have hkeyed : assocGet ((List.range gcols.length).foldl (fun row i =>
      objSet row (gcols.getD i "")
        (match keyArray.get? i with
         | some k => Value.str k
         | none => Value.undef)) []) c = none := by
    rw [foldl_objSet_range_get _ _ _ _ _ (fun i hi =>
      hkeys _ (getD_mem_of_lt gcols i "" (by simpa using hi)))]
    rfl
  rw [hkeyed]
  cases assocGet aggs c <;> rfl

/-- `_createResultDataFrame` (non-count mode) succeeds whenever the result
columns are distinct, and materializes each row object in result-column
order. -/
theorem createResultDataFrame_ok (g : GroupBy) (results : List (List (String × Value)))
    (hnd : (g.groupingColumns ++
      g.df.columns.filter (fun c => ¬ g.groupingColumns.contains c)).Nodup) :
    createResultDataFrame g results false =
      .ok ⟨g.groupingColumns ++
          g.df.columns.filter (fun c => ¬ g.groupingColumns.contains c),
        idxStrings results.length,
        results.map (fun row =>
          (g.groupingColumns ++
            g.df.columns.filter (fun c => ¬ g.groupingColumns.contains c)).map (fun c =>
              match assocGet row c with
              | some v => if v = .undef then .null else v
              | none => Value.null)),
        results.length,
        (g.groupingColumns ++
          g.df.columns.filter (fun c => ¬ g.groupingColumns.contains c)).length⟩ := by
  unfold createResultDataFrame
  have hIC : (if (false = true) then (["count"] : List String)
      else g.df.columns.filter (fun c => ¬ g.groupingColumns.contains c)) =
      g.df.columns.filter (fun c => ¬ g.groupingColumns.contains c) := if_neg (by decide)
  rw [hIC]
  cases results with
  | nil =>
    rw [if_pos (show (List.isEmpty ([] : List (List (String × Value)))) = true from rfl)]
    rfl
  | cons r0 rs =>
    rw [if_neg (show ¬ (List.isEmpty (r0 :: rs)) = true by simp)]
    rw [mkDataFrame_ok_of (fun r hr => by
      obtain ⟨row, _, hrow⟩ := List.mem_map.mp hr
      rw [← hrow, List.length_map]) hnd]
    simp only [List.length_map]

/-- C4: `std()` never throws for a group or column with too few values — the
aggregation always returns a Table (for distinct column names), and for every
group row and every non-grouping column with fewer than two numerically
coercible values in that group (after dropping null/undefined and
non-coercible cells; zero values included), the materialized cell of the
result row is `null`: a per-cell policy, never a whole-operation failure. -/
theorem c4_std_null_policy (sqrt : ℚ → ℚ) (g : GroupBy)
    (hC : g.df.columns.Nodup) (hGnd : g.groupingColumns.Nodup) :
    ∃ res, g.aggregateNumeric sqrt "std" = .ok res ∧
      res.columns = g.groupingColumns ++
        g.df.columns.filter (fun c => ¬ g.groupingColumns.contains c) ∧
      res.rows = g.groupKeys.length ∧
      ∀ j, j < g.groupKeys.length → ∀ c, c ∈ g.df.columns →
        g.groupingColumns.contains c = false →
        (g.numericsFor (g.groupKeys.getD j []) c).length < 2 →
        res.valueAt j c = .null := by
  have hrcnd : (g.groupingColumns ++
      g.df.columns.filter (fun c => ¬ g.groupingColumns.contains c)).Nodup := by
    rw [List.nodup_append]
    refine ⟨hGnd, hC.filter _, ?_⟩
    intro x hx1 hx2
    have hx3 := (List.mem_filter.mp hx2).2
    simp only [decide_eq_true_eq] at hx3
    exact hx3 (by simpa using hx1)
  have hstd2 : ∀ (vals : List ℚ), vals.length < 2 →
      computeAggregation sqrt "std" vals = .null := by
    intro vals hv
    cases vals with
    | nil => rfl
    | cons v0 vtail =>
      have hvt : vtail = [] := by
        cases vtail with
        | nil => rfl
        | cons a t => exact absurd hv (by simp)
      subst hvt
      simp [computeAggregation]
  unfold GroupBy.aggregateNumeric
  rw [createResultDataFrame_ok g _ hrcnd]
  refine ⟨_, rfl, rfl, by simp, ?_⟩
  intro j hj c hcdf hgc hnum
  have hcnotg : c ∉ g.groupingColumns := by simpa using hgc
  have hcrc : c ∈ g.groupingColumns ++
      g.df.columns.filter (fun c => ¬ g.groupingColumns.contains c) :=
    List.mem_append.mpr (Or.inr (List.mem_filter.mpr ⟨hcdf, by simpa using hgc⟩))
  unfold DataFrame.valueAt
  show ((((g.groupKeys.map _).map _)).getD j []).getD _ .undef = Value.null
  rw [List.map_map, getD_map_lt _ _ j _ [] (by simpa using hj)]
  simp only [Function.comp_apply]
  rw [map_getD_indexOf _ _ _ c hcrc]
  rw [buildResultRow_get _ _ _ c
    (aggStep_keys_nodup sqrt "std" g.df g.groupingColumns _ g.df.columns.enum [] (by simp))
    (fun k hk he => hcnotg (he ▸ hk))]
  rw [show g.df.columns.enum = List.enumFrom 0 g.df.columns from rfl,
    aggsGet_main sqrt "std" g.df g.groupingColumns _ c g.df.columns 0 [] hC hcdf hgc]
  simp only [Nat.zero_add]
  unfold GroupBy.numericsFor at hnum
  by_cases hlen : (groupColumnNumerics g.df
      (g.rowIndicesFor (g.groupKeys.getD j [])) (g.df.columns.indexOf c)).length > 0
  · rw [if_pos hlen, hstd2 _ hnum]
    decide
  · rw [if_neg hlen]
    rfl

theorem c4_witness :
    ∃ res, exUGroup.aggregateNumeric id "std" = .ok res ∧
      res.columns = exUGroup.groupingColumns ++
        exUGroup.df.columns.filter (fun c => ¬ exUGroup.groupingColumns.contains c) ∧
      res.rows = exUGroup.groupKeys.length ∧
      ∀ j, j < exUGroup.groupKeys.length → ∀ c, c ∈ exUGroup.df.columns →
        exUGroup.groupingColumns.contains c = false →
        (exUGroup.numericsFor (exUGroup.groupKeys.getD j []) c).length < 2 →
        res.valueAt j c = .null :=
  c4_std_null_policy id exUGroup (by decide) (by decide)

/-! ### Claim theorems: inner merge (C1) -/

theorem flatMap_map {α β γ : Type} (f : α → β) (g : β → List γ) : ∀ (l : List α),
    (l.map f).flatMap g = l.flatMap (fun a => g (f a)) := by
  intro l
  induction l with
  | nil => rfl
  | cons a l ih => simp [List.flatMap_cons, ih]

theorem flatMap_congr {α γ : Type} {f g : α → List γ} : ∀ (l : List α),
    (∀ a ∈ l, f a = g a) → l.flatMap f = l.flatMap g := by
  intro l
  induction l with
  | nil => intro _; rfl
  | cons a l ih =>
    intro h
    simp only [List.flatMap_cons]
    rw [h a (by simp), ih (fun a2 ha2 => h a2 (by simp [ha2]))]

theorem flatMap_nil_fun {α γ : Type} : ∀ (l : List α),
    l.flatMap (fun _ => ([] : List γ)) = [] := by
  intro l
  induction l with
  | nil => rfl
  | cons a l ih => simp [List.flatMap_cons, ih]

/-- C1 (amended): for non-empty sides with valid keys, `merge(…, 'inner')`
emits, for every key value present in both sides, the full Cartesian product
of matching left row indices × matching right row indices — but the result
rows are *key-grouped*: blocks follow the first-occurrence order of the left
keys (left indices ascending within a block, right-match order within those),
not interleaved left-row order. -/
theorem c1_inner_key_grouped (left right : DataFrame) (joinKeys suffixes : List String)
    (hlr : left.rows ≠ 0) (hrr : right.rows ≠ 0)
    (hkeys : ∀ k ∈ joinKeys, k ∈ left.columns ∧ k ∈ right.columns)
    (hsuf : suffixes.length = 2)
    (hnc : (newColumnsOf left right joinKeys suffixes).Nodup) :
    ∃ res, mergeImpl left right joinKeys "inner" suffixes = .ok (.fresh res) ∧
      res.columns = newColumnsOf left right joinKeys suffixes ∧
      res.data = (firstDedup (sideKeys left joinKeys)).flatMap (fun k =>
        ((List.range left.rows).filter (fun i => keyStrOf left joinKeys i = k)).flatMap
          (fun li =>
            ((List.range right.rows).filter (fun i => keyStrOf right joinKeys i = k)).map
              (fun ri => mergedRowOf left right joinKeys li (some ri)))) := by
  have hdata : (buildGroups ((List.range left.rows).map (fun i =>
      (keyStrOf left joinKeys i, i)))).flatMap (fun p =>
        match assocGet (buildGroups ((List.range right.rows).map (fun i =>
          (keyStrOf right joinKeys i, i)))) p.1 with
        | some rightIndices =>
          p.2.flatMap (fun li => rightIndices.map (fun ri =>
            mergedRowOf left right joinKeys li (some ri)))
        | none => []) =
      (firstDedup (sideKeys left joinKeys)).flatMap (fun k =>
        ((List.range left.rows).filter (fun i => keyStrOf left joinKeys i = k)).flatMap
          (fun li =>
            ((List.range right.rows).filter (fun i => keyStrOf right joinKeys i = k)).map
              (fun ri => mergedRowOf left right joinKeys li (some ri)))) := by
    rw [buildGroups_eq]
    unfold groupsSpec
    rw [pairs_map_fst, flatMap_map]
    show (firstDedup (sideKeys left joinKeys)).flatMap _ =
      (firstDedup (sideKeys left joinKeys)).flatMap _
    apply flatMap_congr
    intro k _
    rw [assocGet_buildGroups, pairs_map_fst, pairs_filter_snd]
    by_cases hmem : k ∈ (List.range right.rows).map (keyStrOf right joinKeys)
    · rw [if_pos hmem, pairs_filter_snd]
    · rw [if_neg hmem]
      have hemp : (List.range right.rows).filter
          (fun i => keyStrOf right joinKeys i = k) = [] := by
        rw [List.filter_eq_nil_iff]
        intro i hi
        simp only [decide_eq_true_eq]
        intro habs
        exact hmem (habs ▸ List.mem_map_of_mem (keyStrOf right joinKeys) hi)
      rw [hemp]
      have : ((List.range left.rows).filter
          (fun i => keyStrOf left joinKeys i = k)).flatMap
            (fun li => ([] : List Nat).map (fun ri =>
              mergedRowOf left right joinKeys li (some ri))) =
          ((List.range left.rows).filter
            (fun i => keyStrOf left joinKeys i = k)).flatMap
              (fun _ => ([] : List (List Value))) := rfl
      rw [this, flatMap_nil_fun]
  unfold mergeImpl
  rw [if_neg (fun hc => hlr hc.1), if_neg hlr, if_neg hrr,
    validateJoinKeys_ok left right joinKeys hkeys]
  dsimp only
  rw [if_neg (by decide), if_neg (by simp [hsuf]), if_pos rfl]
  rw [hdata]
  rw [mkDataFrame_ok_of ?hlen hnc]
  case hlen =>
    intro r hr
    obtain ⟨k, _, hr2⟩ := List.mem_flatMap.mp hr
    obtain ⟨li, _, hr3⟩ := List.mem_flatMap.mp hr2
    obtain ⟨ri, _, hr4⟩ := List.mem_map.mp hr3
    rw [← hr4]
    simp [mergedRowOf, newColumnsOf]
  exact ⟨_, rfl, rfl, rfl⟩

theorem c1_witness :
    ∃ res, mergeImpl exL exR ["k"] "inner" ["_x", "_y"] = .ok (.fresh res) ∧
      res.columns = newColumnsOf exL exR ["k"] ["_x", "_y"] ∧
      res.data = (firstDedup (sideKeys exL ["k"])).flatMap (fun k =>
        ((List.range exL.rows).filter (fun i => keyStrOf exL ["k"] i = k)).flatMap
          (fun li =>
            ((List.range exR.rows).filter (fun i => keyStrOf exR ["k"] i = k)).map
              (fun ri => mergedRowOf exL exR ["k"] li (some ri)))) :=
  c1_inner_key_grouped exL exR ["k"] ["_x", "_y"] (by decide) (by decide) (by decide)
    (by decide) (by decide)

/-! ### Horizontal concat (C9) -/

theorem getD_mem_lt {α : Type} (l : List α) (i : Nat) (d : α) (h : i < l.length) :
    l.getD i d ∈ l := by
  cases hg : l.get? i with
  | none => exact absurd (List.get?_eq_none.mp hg) (by omega)
  | some v =>
    have hv := List.get?_mem hg
    simp only [List.getD, hg, Option.getD_some]
    exact hv

theorem findMismatch_none (n : Nat) : ∀ (l : List DataFrame) (i : Nat),
    findMismatch n l i = none → ∀ d ∈ l, d.rows = n := by
  intro l
  induction l with
  | nil => intro i _ d hd; cases hd
  | cons x xs ih =>
    intro i h d hd
    unfold findMismatch at h
    by_cases hc : x.rows = n
    · rw [if_neg (fun hcc => hcc hc)] at h
      rcases List.mem_cons.mp hd with h1 | h2
      · rw [h1]; exact hc
      · exact ih (i + 1) h d h2
    · rw [if_pos hc] at h
      cases h

/-- C9 (amended): horizontal concat ignores zero-row frames entirely: if no
frame remains the result is the empty frame; if a remaining frame's row count
differs from the first remaining frame's, a validation error names its
position *among the non-empty frames* and the two row counts; otherwise, when
the concatenated column lists are collision-free, the result's columns are
every non-empty frame's columns in input order and its row `i` is the
concatenation of every non-empty frame's row `i`. -/
theorem c9_concat_horizontal (dfs : List DataFrame)
    (hwf : ∀ d ∈ dfs, d.WFshape) (hnd : ∀ d ∈ dfs, d.columns.Nodup) :
    (dfs.filter (fun d => decide (0 < d.rows)) = [] →
      concatImpl dfs 1 = .ok emptyDF) ∧
    (∀ d0 ds, dfs.filter (fun d => decide (0 < d.rows)) = d0 :: ds →
      (∀ i m, findMismatch d0.rows ds 1 = some (i, m) →
        concatImpl dfs 1 = .error (.validation (concatMismatchMsg d0.rows i m))) ∧
      (findMismatch d0.rows ds 1 = none →
        ((d0 :: ds).flatMap (fun d => d.columns)).Nodup →
        ∃ res, concatImpl dfs 1 = .ok res ∧
          res.columns = (d0 :: ds).flatMap (fun d => d.columns) ∧
          res.rows = d0.rows ∧
          res.data = (List.range d0.rows).map (fun i =>
            (d0 :: ds).flatMap (fun d => d.data.getD i [])))) := by
  have hax1 : ¬ ((1 : Nat) ≠ 0 ∧ (1 : Nat) ≠ 1) := by decide
  have hax2 : ¬ ((1 : Nat) = 0) := by decide
  constructor
  · intro hfe
    by_cases hde : dfs = []
    · subst hde; decide
    · unfold concatImpl
      rw [if_neg (fun hc => hde (List.isEmpty_iff.mp hc))]
      rw [if_neg hax1, if_neg hax2]
      simp only [hfe]
      decide
  · intro d0 ds hfe
    have hde : dfs ≠ [] := by
      intro hc
      rw [hc] at hfe
      simp at hfe
    have hred : concatImpl dfs 1 =
        (match findMismatch d0.rows ds 1 with
         | some p => .error (.validation (concatMismatchMsg d0.rows p.1 p.2))
         | none =>
           mkDataFrame ((List.range d0.rows).map (fun i =>
             (d0 :: ds).flatMap (fun df => df.columns.map (fun c => df.rowFun i c))))
             (some ((d0 :: ds).flatMap (fun d => d.columns)))) := by
      unfold concatImpl
      rw [if_neg (fun hc => hde (List.isEmpty_iff.mp hc))]
      rw [if_neg hax1, if_neg hax2]
      simp only [hfe]
      rfl
    constructor
    · intro i m hm
      rw [hred, hm]
    · intro hm hndall
      have hrows : ∀ d ∈ d0 :: ds, d.rows = d0.rows := by
        intro d hd
        rcases List.mem_cons.mp hd with h1 | h2
        · rw [h1]
        · exact findMismatch_none d0.rows ds 1 hm d h2
      have hwfall : ∀ d ∈ d0 :: ds, d.WFshape := by
        intro d hd
        have hdf : d ∈ dfs.filter (fun d => decide (0 < d.rows)) := by
          rw [hfe]; exact hd
        exact hwf d (List.mem_of_mem_filter hdf)
      have hndall2 : ∀ d ∈ d0 :: ds, d.columns.Nodup := by
        intro d hd
        have hdf : d ∈ dfs.filter (fun d => decide (0 < d.rows)) := by
          rw [hfe]; exact hd
        exact hnd d (List.mem_of_mem_filter hdf)
      have hmat : (List.range d0.rows).map (fun i =>
          (d0 :: ds).flatMap (fun df => df.columns.map (fun c => df.rowFun i c))) =
          (List.range d0.rows).map (fun i =>
          (d0 :: ds).flatMap (fun d => d.data.getD i [])) := by
        apply List.map_congr_left
        intro i hi
        apply flatMap_congr
        intro d hd
        obtain ⟨hr1, hc1, _, hrl⟩ := hwfall d hd
        have hi0 : i < d0.rows := List.mem_range.mp hi
        have hir : i < d.data.length := by rw [← hr1, hrows d hd]; exact hi0
        have hlen2 : (d.data.getD i []).length = d.columns.length := by
          rw [hrl _ (getD_mem_lt _ _ _ hir)]
          exact hc1
        simp only [DataFrame.rowFun]
        exact row_materialize d.columns (d.data.getD i []) (hndall2 d hd) hlen2
      rw [hred, hm, hmat]
      rw [mkDataFrame_ok_of ?hlen hndall]
      case hlen =>
        intro r hr
        obtain ⟨i, hi, hr2⟩ := List.mem_map.mp hr
        rw [← hr2, List.length_flatMap, List.length_flatMap]
        congr 1
        apply List.map_congr_left
        intro d hd
        show (d.data.getD i []).length = d.columns.length
        obtain ⟨hr1, hc1, _, hrl⟩ := hwfall d hd
        have hi0 : i < d0.rows := List.mem_range.mp hi
        have hir : i < d.data.length := by rw [← hr1, hrows d hd]; exact hi0
        rw [hrl _ (getD_mem_lt _ _ _ hir)]
        exact hc1
      refine ⟨_, rfl, rfl, by simp, rfl⟩

theorem c9_witness :
    concatImpl [exL, exEmptyK, exR] 1 =
      .error (.validation (concatMismatchMsg 3 1 2)) := by
  have h := (c9_concat_horizontal [exL, exEmptyK, exR]
      (by intro d hd; fin_cases hd <;> exact ⟨by decide, by decide, by decide, by decide⟩)
      (by intro d hd; fin_cases hd <;> decide)).2 exL [exR] (by decide)
  exact h.1 1 2 (by decide)

/-! ### Structural invariant (C10) -/

theorem sinv_of_mkDataFrame {dl : List (List Value)} {c? : Option (List String)}
    {df : DataFrame} (h : mkDataFrame dl c? = .ok df) : df.SInv := by
  obtain ⟨_, h2, h3, _⟩ := mkDataFrame_ok_wf h
  exact ⟨h3, h2⟩

theorem sinv_of_createResultDataFrame {g : GroupBy}
    {results : List (List (String × Value))} {b : Bool} {res : DataFrame}
    (h : createResultDataFrame g results b = .ok res) : res.SInv := by
  simp only [createResultDataFrame] at h
  split at h
  · cases h; exact ⟨rfl, rfl⟩
  · exact sinv_of_mkDataFrame h

theorem map_fresh_ok {X : Except PdError DataFrame} {df : DataFrame}
    (h : X.map MergeOut.fresh = .ok (.fresh df)) : X = .ok df := by
  cases X with
  | error e => simp [Except.map] at h
  | ok d =>
    simp only [Except.map] at h
    injection h with h1
    injection h1 with h2
    rw [h2]

theorem mergeImpl_fresh_mk {l r : DataFrame} {ks : List String} {how : String}
    {sfx : List String} {df : DataFrame}
    (h : mergeImpl l r ks how sfx = .ok (.fresh df)) :
    ∃ dl c?, mkDataFrame dl c? = .ok df := by
  unfold mergeImpl at h
  by_cases h1 : l.rows = 0 ∧ r.rows = 0
  · rw [if_pos h1] at h
    exact ⟨_, _, map_fresh_ok h⟩
  · rw [if_neg h1] at h
    by_cases h2 : l.rows = 0
    · rw [if_pos h2] at h
      by_cases h3 : how = "right" ∨ how = "outer"
      · rw [if_pos h3] at h
        injection h with ha
        cases ha
      · rw [if_neg h3] at h
        exact ⟨_, _, map_fresh_ok h⟩
    · rw [if_neg h2] at h
      by_cases h4 : r.rows = 0
      · rw [if_pos h4] at h
        by_cases h5 : how = "left" ∨ how = "outer"
        · rw [if_pos h5] at h
          injection h with ha
          cases ha
        · rw [if_neg h5] at h
          exact ⟨_, _, map_fresh_ok h⟩
      · rw [if_neg h4] at h
        cases hv : validateJoinKeys l r ks with
        | error e => rw [hv] at h; cases h
        | ok u =>
          obtain ⟨⟩ := u
          rw [hv] at h
          dsimp only at h
          by_cases h6 : ¬ (["inner", "left", "right", "outer"] : List String).contains how
          · rw [if_pos h6] at h; cases h
          · rw [if_neg h6] at h
            by_cases h7 : sfx.length ≠ 2
            · rw [if_pos h7] at h; cases h
            · rw [if_neg h7] at h
              exact ⟨_, _, map_fresh_ok h⟩

theorem concatImpl_mk {dfs : List DataFrame} {axis : Nat} {res : DataFrame}
    (h : concatImpl dfs axis = .ok res) : ∃ dl c?, mkDataFrame dl c? = .ok res := by
  simp only [concatImpl] at h
  split at h
  · exact ⟨_, _, h⟩
  · split at h
    · cases h
    · split at h
      · split at h
        · exact ⟨_, _, h⟩
        · exact ⟨_, _, h⟩
      · split at h
        · exact ⟨_, _, h⟩
        · split at h
          · cases h
          · exact ⟨_, _, h⟩

/-- C10: every Table produced by the constructor or by one of the core
operations — select, filter, groupBy aggregation or count, merge (with
invariant-satisfying inputs, for the aliasing short circuits), concat, apply,
map, replace, describe — satisfies the structural invariant
`index.length = rows` and `cols = columns.length`, including the
special-cased empty results. -/
theorem c10_structural_invariant (res : DataFrame) (h : ProducedBy res) :
    res.index.length = res.rows ∧ res.cols = res.columns.length := by
  rcases h with ⟨dl, c?, hm⟩ | ⟨df, cs, hm⟩ | ⟨df, c, hm⟩ | ⟨df, cols, f, method, hm⟩ |
    ⟨df, cols, hm⟩ | ⟨l, r, ks, how, sfx, hL, hR, hm⟩ | ⟨dfs, axis, hm⟩ |
    ⟨df, c, fn, hm⟩ | ⟨df, fn, hm⟩ | ⟨df, p, v, c?, hm⟩ | ⟨df, f, hm⟩
  · exact sinv_of_mkDataFrame hm
  · unfold DataFrame.select at hm
    split at hm
    · cases hm
    · exact sinv_of_mkDataFrame hm
  · simp only [DataFrame.filterRows] at hm
    split at hm
    · cases hm; exact ⟨rfl, rfl⟩
    · exact sinv_of_mkDataFrame hm
  · unfold DataFrame.groupAgg at hm
    cases hg : mkGroupBy df cols with
    | error e => rw [hg] at hm; cases hm
    | ok g =>
      rw [hg] at hm
      have hm2 : GroupBy.aggregateNumeric f g method = .ok res := hm
      unfold GroupBy.aggregateNumeric at hm2
      exact sinv_of_createResultDataFrame hm2
  · unfold DataFrame.groupCount at hm
    cases hg : mkGroupBy df cols with
    | error e => rw [hg] at hm; cases hm
    | ok g =>
      rw [hg] at hm
      have hm2 : GroupBy.countAgg g = .ok res := hm
      unfold GroupBy.countAgg at hm2
      exact sinv_of_createResultDataFrame hm2
  · unfold mergeDF at hm
    cases ho : mergeImpl l r ks how sfx with
    | error e => rw [ho] at hm; simp [Except.map] at hm
    | ok out =>
      rw [ho] at hm
      simp only [Except.map] at hm
      cases out with
      | fresh d =>
        injection hm with h1
        rw [← h1]
        obtain ⟨dl2, c2, hmk⟩ := mergeImpl_fresh_mk ho
        exact sinv_of_mkDataFrame hmk
      | aliasLeft => injection hm with h1; rw [← h1]; exact hL
      | aliasRight => injection hm with h1; rw [← h1]; exact hR
  · obtain ⟨dl2, c2, hmk⟩ := concatImpl_mk hm
    exact sinv_of_mkDataFrame hmk
  · unfold DataFrame.applyCol at hm
    split at hm
    · cases hm
    · exact sinv_of_mkDataFrame hm
  · unfold DataFrame.mapCells at hm
    exact sinv_of_mkDataFrame hm
  · unfold DataFrame.replaceVals at hm
    split at hm
    · split at hm
      · cases hm
      · exact sinv_of_mkDataFrame hm
    · exact sinv_of_mkDataFrame hm
  · unfold DataFrame.describeStats at hm
    split at hm
    · exact sinv_of_mkDataFrame hm
    · cases hmk : mkDataFrame (statNames.map (fun s =>
          df.columns.map (fun c => describeCell f df s c))) (some df.columns) with
      | error e => rw [hmk] at hm; simp [Except.map] at hm
      | ok r0 =>
        rw [hmk] at hm
        simp only [Except.map] at hm
        injection hm with h1
        rw [← h1]
        obtain ⟨_, _, hrows, hcols⟩ := mkDataFrame_ok_shape hmk
        refine ⟨?_, hcols⟩
        show statNames.length = r0.rows
        rw [hrows, List.length_map]

theorem c10_witness : exL.index.length = exL.rows ∧ exL.cols = exL.columns.length :=
  c10_structural_invariant exL
    (Or.inl ⟨[[.num 1], [.num 2], [.num 1]], some ["k"], by decide⟩)

/-! ### Counterexample theorems -/

/-- C1, counterexample: with left keys `1, 2, 1` and right keys `1, 2`,
`merge(…, 'inner')` emits the two key-`1` rows adjacently (key-grouped order
from iterating the left key map) and *then* the key-`2` row, not the
interleaved left-row order `1, 2, 1` the claim asserts — the two orders
differ at row 1. -/
theorem c1_counterexample :
    mkDataFrame [[.num 1], [.num 2], [.num 1]] (some ["k"]) = .ok exL ∧
    mkDataFrame [[.num 1, .str "x"], [.num 2, .str "y"]] (some ["k", "v"]) = .ok exR ∧
    mergeDF exL exR ["k"] "inner" ["_x", "_y"] =
      .ok ⟨["k", "v"], ["0", "1", "2"],
        [[.num 1, .str "x"], [.num 1, .str "x"], [.num 2, .str "y"]], 3, 2⟩ ∧
    ([[.num 1, .str "x"], [.num 1, .str "x"], [.num 2, .str "y"]] : List (List Value)) ≠
      [[.num 1, .str "x"], [.num 2, .str "y"], [.num 1, .str "x"]] := by
  refine ⟨by decide, by decide, by decide, by decide⟩

/-- C2, counterexample: with two zero-row Tables, `merge` with the invalid
join type `'banana'` returns the empty Table instead of raising a validation
error — the empty-input short circuits run before the join-type check. -/
theorem c2_counterexample :
    mkDataFrame [] none = .ok emptyDF ∧
    mergeDF emptyDF emptyDF ["k"] "banana" ["_x", "_y"] = .ok emptyDF := by
  refine ⟨by decide, by decide⟩

/-- C3, counterexample: grouping by the two columns `['a','b']` with first
key values `10` then `2`, `count()` lists the group `(2,1)` before `(10,1)` —
the nested-object `for..in` enumeration visits integer-like keys in ascending
numeric order, not in first-occurrence order. -/
theorem c3_counterexample :
    mkDataFrame [[.num 10, .num 1], [.num 2, .num 1]] (some ["a", "b"]) = .ok exAB ∧
    exAB.groupCount ["a", "b"] =
      .ok ⟨["a", "b", "count"], ["0", "1"],
        [[.str "2", .str "1", .num 1], [.str "10", .str "1", .num 1]], 2, 3⟩ ∧
    ([[.str "2", .str "1", .num 1], [.str "10", .str "1", .num 1]] : List (List Value)) ≠
      [[.str "10", .str "1", .num 1], [.str "2", .str "1", .num 1]] := by
  refine ⟨by decide, by decide, by decide⟩

/-- C5, counterexample: a left row whose key cell is the number `1` and a
right row whose key cell is the string `"1"` do *not* match under
`merge(…, 'inner')` — the result has zero rows, because the join serializes
key tuples with `JSON.stringify`, which distinguishes `[1]` from `["1"]`. -/
theorem c5_counterexample :
    mkDataFrame [[.num 1]] (some ["k"]) = .ok exM1 ∧
    mkDataFrame [[.str "1", .num 25]] (some ["k", "v"]) = .ok exM2 ∧
    jsonKeyOf [.num 1] ≠ jsonKeyOf [.str "1"] ∧
    mergeDF exM1 exM2 ["k"] "inner" ["_x", "_y"] = .ok ⟨["k", "v"], [], [], 0, 2⟩ := by
  refine ⟨by decide, by decide, by decide, by decide⟩

/-- C6, counterexample: merging a non-empty left Table with a zero-row right
Table under `how='left'` hits the `return this` short circuit — the result is
the left *input object itself* (`MergeOut.aliasLeft`), not a new Table. -/
theorem c6_counterexample :
    mkDataFrame ([] : List (List Value)) (some ["k"]) = .ok exEmptyK ∧
    mergeImpl exL exEmptyK ["k"] "left" ["_x", "_y"] = .ok .aliasLeft := by
  refine ⟨by decide, by decide⟩

/-- C8, counterexample: grouping a non-empty Table by its column named
`count`, `count()` throws the duplicate-column validation error (result
columns would be `['count','count']`) instead of returning a Table whose
counts sum to the row count. -/
theorem c8_counterexample :
    mkDataFrame [[.num 0]] (some ["count"]) = .ok exCnt ∧
    exCnt.groupCount ["count"] =
      .error (.validation "Invalid column names: Column names must be unique") := by
  refine ⟨by decide, by decide⟩

/-- C9, counterexample: horizontally concatenating two one-row Tables that
both carry the column `a` — equal row counts, so the claim asserts an output
with columns `['a','a']` — raises the duplicate-column validation error from
the result constructor instead of returning a Table. -/
theorem c9_counterexample :
    mkDataFrame [[.num 1]] (some ["a"]) = .ok exA1 ∧
    concatImpl [exA1, exA1] 1 =
      .error (.validation "Invalid column names: Column names must be unique") := by
  refine ⟨by decide, by decide⟩

end NodePandas
